import Mathlib

/-!
Verification of the fixture-graph relationship-inference and rendering engine
(`src/fixturegraph/_/diagram.py`).

The Python module is shallowly embedded: Python objects ("entities") become a
`Entity` tree carrying a type tag and named attribute values, Python dicts become
insertion-ordered association lists, Python sets become insertion-ordered
duplicate-free lists, and Python exceptions become `Except Err`.  Strings are
modelled over their character lists; `str.lower` and the regex classes `\W`/`\s`
are modelled at ASCII granularity (the only granularity the test corpus and the
spec exercise).  `show_diagram`/`write_dot` (subprocess and file I/O) are outside
the modelled core, matching the spec's scope.
-/

namespace FixtureGraph

/-- A Python class object: an identity (`tid`, standing for the object identity
of the class, which keys configuration dicts) plus its `__name__`. -/
structure PyType where
  tid : Nat
  name : String
deriving DecidableEq, Repr

mutual

/-- A Python attribute value, at the granularity the engine inspects:
strings, lists of strings, tuples of strings, zero-argument callables
returning a string, entity references, lists of entity references, and
anything else (`other`), which the engine ignores or rejects. -/
inductive Value where
  | str : String → Value
  | strList : List String → Value
  | strTuple : List String → Value
  | callableStr : String → Value
  | entity : Entity → Value
  | entityList : List Entity → Value
  | other : Value

/-- A Python object: its class, whether it is a namedtuple instance
(`isnamedtupleinstance` in the source), and its named attributes. -/
inductive Entity where
  | mk : PyType → Bool → List (String × Value) → Entity

end

def Entity.type_ : Entity → PyType
  | .mk t _ _ => t

def Entity.isNamedTuple : Entity → Bool
  | .mk _ b _ => b

def Entity.attrs : Entity → List (String × Value)
  | .mk _ _ a => a

/-- The failure modes of a diagram build.  The source raises host-language
exceptions; the spec (§7) groups the missing-identity-mapping `KeyError` under
the name `ConfigurationError`.  Modelled from the spec: no `ConfigurationError`
class exists in the source tree, so the spec's taxonomy names the constructors
here.  `configurationError` is the `KeyError` raised when `config.id_attrs`
has no entry for an entity's type (directly or for a referenced child),
`attributeError` a failed `getattr`, `typeError` a non-string/non-tuple
identity value, and `valueError` the unpacking failure of a singleton
undirected node pair in `combine_arrows`. -/
inductive Err where
  | configurationError
  | attributeError
  | typeError
  | valueError
deriving DecidableEq, Repr

/-! ### Python dict / set semantics over insertion-ordered lists -/

/-- Python `d[k]` / `d.get(k)`: first binding of `k`. -/
def dlookup {K V : Type} [DecidableEq K] (k : K) : List (K × V) → Option V
  | [] => none
  | kv :: d => if kv.1 = k then some kv.2 else dlookup k d

/-- Python `d[k] = v`: overwrite in place if present, else append. -/
def dset {K V : Type} [DecidableEq K] (d : List (K × V)) (k : K) (v : V) : List (K × V) :=
  if d.any (fun kv => decide (kv.1 = k)) then
    d.map (fun kv => if kv.1 = k then (k, v) else kv)
  else d ++ [(k, v)]

/-- Python `d.setdefault(k, dflt)` followed by an in-place update `f`. -/
def dupd {K V : Type} [DecidableEq K] (d : List (K × V)) (k : K) (dflt : V) (f : V → V) :
    List (K × V) :=
  if d.any (fun kv => decide (kv.1 = k)) then
    d.map (fun kv => if kv.1 = k then (k, f kv.2) else kv)
  else d ++ [(k, f dflt)]

/-- Python `s.add(x)` on a set, modelled in insertion order. -/
def sadd {α : Type} [DecidableEq α] (s : List α) (x : α) : List α :=
  if x ∈ s then s else s ++ [x]

/-- Python `set(xs)`: first occurrences, in insertion order. -/
def sdedup {α : Type} [DecidableEq α] (l : List α) : List α :=
  l.foldl sadd []

instance {ε α : Type} [DecidableEq ε] [DecidableEq α] : DecidableEq (Except ε α) := fun a b =>
  match a, b with
  | .ok x, .ok y =>
    if h : x = y then isTrue (by rw [h]) else isFalse (fun hc => h (Except.ok.inj hc))
  | .error x, .error y =>
    if h : x = y then isTrue (by rw [h]) else isFalse (fun hc => h (Except.error.inj hc))
  | .ok _, .error _ => isFalse (fun hc => Except.noConfusion hc)
  | .error _, .ok _ => isFalse (fun hc => Except.noConfusion hc)

/-! ### Code-point comparison (Python `sorted` on `str` and on tuples) -/

/-- Three-way comparison from a linear order. -/
def cmpOfLO {α : Type} [LinearOrder α] (a b : α) : Ordering :=
  if a < b then .lt else if b < a then .gt else .eq

def cmpCharList : List Char → List Char → Ordering
  | [], [] => .eq
  | [], _ :: _ => .lt
  | _ :: _, [] => .gt
  | a :: as, b :: bs =>
    match cmpOfLO a b with
    | .eq => cmpCharList as bs
    | o => o

/-- Python string comparison: code-point lexicographic. -/
def cmpStr (a b : String) : Ordering :=
  cmpCharList a.data b.data

def strLeb (a b : String) : Bool :=
  match cmpStr a b with
  | .gt => false
  | _ => true

def strLe (a b : String) : Prop := strLeb a b = true

instance : DecidableRel strLe := fun a b => inferInstanceAs (Decidable (strLeb a b = true))

/-- Python `sorted` on a list of strings. -/
def sortStr (l : List String) : List String :=
  List.insertionSort strLe l

/-! ### slugify -/

/-- ASCII model of `str.lower` (matching `Char.toLower`). -/
def pyLower (c : Char) : Char := c.toLower

/-- The characters `slugify` replaces with `_` before dropping non-word
characters: space, dash, dot, slash. -/
def isPunct (c : Char) : Bool := c = ' ' || c = '-' || c = '.' || c = '/'

/-- Regex word character (`\w`), ASCII granularity. -/
def isWordChar (c : Char) : Bool := c.isAlphanum || c = '_'

/-- `re.sub(r"\s+", " ", s)` where, at its call site in `slugify`, the only
whitespace left is the space character. -/
def collapseSpaces : List Char → List Char
  | [] => []
  | [c] => [c]
  | c1 :: c2 :: rest =>
    if c1 = ' ' && c2 = ' ' then collapseSpaces (c2 :: rest)
    else c1 :: collapseSpaces (c2 :: rest)

/-- `str.strip()` where only spaces can occur as whitespace. -/
def stripSpaces (l : List Char) : List Char :=
  ((l.dropWhile (fun c => c = ' ')).reverse.dropWhile (fun c => c = ' ')).reverse

def slugifyChars (l : List Char) : List Char :=
  let s1 := l.map pyLower
  let s2 := s1.map (fun c => if isPunct c then '_' else c)
  let s3 := s2.filter isWordChar
  let s4 := s3.map (fun c => if c = '_' then ' ' else c)
  let s5 := collapseSpaces s4
  let s6 := stripSpaces s5
  s6.map (fun c => if c = ' ' then '_' else c)

/-- `slugify` from the source: lower-case, map `" -./"` to `_`, drop non-word
characters, then normalise underscore runs via spaces and strip. -/
def slugify (s : String) : String :=
  String.mk (slugifyChars s.data)

/-! ### Source translation: attribute extraction -/

/-- Helper loop of `filter_out_synonymous_attributes`: `seen` is the `seen`
dict (a set of representatives). -/
def filterSynGo (synonymous_attrs : List (PyType × List String)) (entity : Entity)
    (seen : List String) : List (String × String) → List (String × String)
  | [] => []
  | kv :: rest =>
    let synonyms := (dlookup entity.type_ synonymous_attrs).getD []
    if kv.1 ∈ synonyms then
      -- `synonyms[0]`; the guard `kv.1 ∈ synonyms` makes `synonyms` nonempty,
      -- so the default is unreachable
      let representative := synonyms.headD ""
      if representative ∈ seen then filterSynGo synonymous_attrs entity seen rest
      else kv :: filterSynGo synonymous_attrs entity (sadd seen representative) rest
    else kv :: filterSynGo synonymous_attrs entity seen rest

def filter_out_synonymous_attributes (synonymous_attrs : List (PyType × List String))
    (entity : Entity) (attrs : List (String × String)) : List (String × String) :=
  filterSynGo synonymous_attrs entity [] attrs

/-- `inspect.isroutine`: true of callable members, which `get_attrs` skips. -/
def isRoutine : Value → Bool
  | .callableStr _ => true
  | _ => false

/-- `inspect.getmembers(entity, lambda a: not inspect.isroutine(a))`: the
non-routine attributes, sorted by name. -/
def getmembers (e : Entity) : List (String × Value) :=
  List.insertionSort (fun a b => strLe a.1 b.1) (e.attrs.filter (fun kv => !(isRoutine kv.2)))

def startsWithDunder (s : String) : Bool :=
  match s.data with
  | '_' :: '_' :: _ => true
  | _ => false

/-- `k.lstrip("_")`. -/
def lstripUnderscore (s : String) : String :=
  String.mk (s.data.dropWhile (fun c => c = '_'))

/-- `get_attrs` from the source: collect string attributes and elements of
string-sequence attributes (both Python lists and tuples of strings satisfy
`is_sequence_of_strings`), keyed by stripped name (with `_{i}` suffixes for
sequence elements), then apply synonym filtering. -/
def get_attrs (synonymous_attrs : List (PyType × List String)) (entity : Entity) :
    List (String × String) :=
  let attrs := (getmembers entity).foldl (fun attrs kv =>
    if startsWithDunder kv.1 then attrs
    else if entity.isNamedTuple && kv.1 = "_fields" then attrs
    else match kv.2 with
      | .str v => dset attrs (lstripUnderscore kv.1) v
      | .strList items =>
        items.enum.foldl (fun attrs iv =>
          dset attrs (lstripUnderscore kv.1 ++ "_" ++ toString iv.1) iv.2) attrs
      | .strTuple items =>
        items.enum.foldl (fun attrs iv =>
          dset attrs (lstripUnderscore kv.1 ++ "_" ++ toString iv.1) iv.2) attrs
      | _ => attrs) []
  filter_out_synonymous_attributes synonymous_attrs entity attrs

/-- One child reference yielded by `get_children` for attribute `name` holding
value `v`: a Python `list` value is enumerated with `"{name}_{i}"` keys, any
other value is yielded whole under `name`. -/
def childEntries (name : String) : Value → List (String × Value)
  | .entityList cs => cs.enum.map (fun ic => (name ++ "_" ++ toString ic.1, Value.entity ic.2))
  | .strList ss => ss.enum.map (fun ic => (name ++ "_" ++ toString ic.1, Value.str ic.2))
  | v => [(name, v)]

/-- `get_children` from the source (the generator is modelled eagerly; a
failing `getattr` aborts with `attributeError`). -/
def get_children (attrs_with_child_refs : List (PyType × List String)) (entity : Entity) :
    Except Err (List (String × Value)) :=
  ((dlookup entity.type_ attrs_with_child_refs).getD []).foldlM (fun acc name =>
    match dlookup name entity.attrs with
    | none => Except.error Err.attributeError
    | some v => pure (acc ++ childEntries name v)) []

/-! ### Source translation: identity resolution and the graph data types -/

/-- `"_".join(value)` for a tuple identity value. -/
def joinUnderscore (parts : List String) : String :=
  String.intercalate "_" parts

/-- `entity_name` from the source: look up the identity attribute for the
entity's type (`KeyError` = `configurationError` when missing), resolve it
(invoking callables), join tuple values with `_`, and prefix the type name.
Non-string, non-tuple identity values make the string concatenation fail
(`typeError`). -/
def entity_name (id_attrs : List (PyType × String)) (entity : Entity) : Except Err String :=
  match dlookup entity.type_ id_attrs with
  | none => Except.error Err.configurationError
  | some attrName =>
    match dlookup attrName entity.attrs with
    | none => Except.error Err.attributeError
    | some attr =>
      match attr with
      | .str s => Except.ok (entity.type_.name ++ "_" ++ s)
      | .callableStr s => Except.ok (entity.type_.name ++ "_" ++ s)
      | .strTuple parts => Except.ok (entity.type_.name ++ "_" ++ joinUnderscore parts)
      | _ => Except.error Err.typeError

structure Node where
  name : String
deriving DecidableEq, Repr

structure Arrow where
  src_name : String
  dst_name : String
  key : String
  value : Option String
  guessed : Bool
  src_type : PyType
  dst_type : PyType
deriving DecidableEq, Repr

structure DotArrow where
  src : String
  dst : String
  label : Option String
  bidirectional : Bool
deriving DecidableEq, Repr

/-- `DotArrow.make`: for a bidirectional edge the endpoints are sorted
(`sorted([src, dst])`) so dot output is reproducible. -/
def DotArrow.make (src dst : String) (label : Option String) (bidirectional : Bool) : DotArrow :=
  if bidirectional then
    if strLeb src dst then ⟨src, dst, label, bidirectional⟩
    else ⟨dst, src, label, bidirectional⟩
  else ⟨src, dst, label, bidirectional⟩

structure Configuration where
  id_attrs : List (PyType × String)
  attrs_with_child_refs : List (PyType × List String) := []
  synonymous_attrs : List (PyType × List String) := []

/-! ### Source translation: guessed arrows -/

/-- The three dictionaries built by the first loop of
`make_guessed_arrows_from_attr_string_values`. -/
structure GuessIndex where
  attrs_by_entity_name : List (String × List (String × String))
  types_by_entity_name : List (String × PyType)
  by_value : List (String × List String)

/-- `by_value.setdefault(v, set()).add(name)` for every `(k, v)` of one
entity's attributes. -/
def addAttrsToByValue (name : String) (attrs : List (String × String))
    (bv : List (String × List String)) : List (String × List String) :=
  attrs.foldl (fun bv kv => dupd bv kv.2 [] (fun s => sadd s name)) bv

def indexEntity (config : Configuration) (st : GuessIndex) (entity : Entity) :
    Except Err GuessIndex := do
  let name ← entity_name config.id_attrs entity
  let attrs := get_attrs config.synonymous_attrs entity
  pure { attrs_by_entity_name := dset st.attrs_by_entity_name name attrs
         types_by_entity_name := dset st.types_by_entity_name name entity.type_
         by_value := addAttrsToByValue name attrs st.by_value }

def indexEntities (config : Configuration) (entities : List Entity) : Except Err GuessIndex :=
  entities.foldlM (indexEntity config) ⟨[], [], []⟩

/-- Key of the `attrs_` dictionary: `(src_type, src_name, dst_type, dst_name)`. -/
def PairKey : Type := PyType × String × PyType × String

instance : DecidableEq PairKey :=
  inferInstanceAs (DecidableEq (PyType × String × PyType × String))

/-- Unreachable placeholder for `types_by_entity_name[dst_name]`: every name in
`by_value` was also inserted into `types_by_entity_name`. -/
def dummyType : PyType := ⟨0, ""⟩

/-- Inner loop over `dst_names` for one `(k, v)` attribute of `src_name`:
`dst_names = set(by_value.get(v, [])) - {src_name}`, and each destination adds
`(k, v)` to `attrs_[(src_type, src_name, dst_type, dst_name)]`. -/
def addDstsForAttr (st : GuessIndex) (src_type : PyType) (src_name k v : String)
    (acc : List (PairKey × List (String × String))) : List (PairKey × List (String × String)) :=
  let dst_names := ((dlookup v st.by_value).getD []).filter (fun n => n ≠ src_name)
  dst_names.foldl (fun acc dst_name =>
    let dst_type := (dlookup dst_name st.types_by_entity_name).getD dummyType
    dupd acc (src_type, src_name, dst_type, dst_name) [] (fun s => sadd s (k, v))) acc

/-- Middle loop of the second phase: all `(k, v)` of one source entity. -/
def addArrowSources (st : GuessIndex) (src_type : PyType) (src_name : String)
    (src_attrs : List (String × String)) (acc : List (PairKey × List (String × String))) :
    List (PairKey × List (String × String)) :=
  src_attrs.foldl (fun acc kv => addDstsForAttr st src_type src_name kv.1 kv.2 acc) acc

/-- The `attrs_` dictionary of the source. -/
def guessPairs (st : GuessIndex) : List (PairKey × List (String × String)) :=
  st.attrs_by_entity_name.foldl (fun acc na =>
    let src_type := (dlookup na.1 st.types_by_entity_name).getD dummyType
    addArrowSources st src_type na.1 na.2 acc) []

/-- One guessed `Arrow` from an `attrs_` entry key
`(src_type, src_name, dst_type, dst_name)` and one `(k, v)` pair, with
slugified endpoint names. -/
def guessArrowOfKV (key : PairKey) (kv : String × String) : Arrow :=
  { src_name := slugify key.2.1
    dst_name := slugify key.2.2.2
    key := kv.1
    value := some kv.2
    guessed := true
    src_type := key.1
    dst_type := key.2.2.1 }

/-- Third phase: each `(k, v)` of each `attrs_` entry becomes one guessed
`Arrow`. -/
def arrowsOfGuessPairs (pairs : List (PairKey × List (String × String))) : List Arrow :=
  pairs.foldl (fun arrows p => arrows ++ p.2.map (guessArrowOfKV p.1)) []

def make_guessed_arrows_from_attr_string_values (config : Configuration)
    (entities : List Entity) : Except Err (List Arrow) := do
  let st ← indexEntities config entities
  pure (arrowsOfGuessPairs (guessPairs st))

/-! ### Source translation: reference-declared arrows -/

/-- Loop body of `make_arrows_from_python_refs` for one `(attr_name, child)`
yielded by `get_children`: the parent name is resolved first (as in the
source's loop body), then the child's.  A non-entity child value reaches
`entity_name` with a type that has no `id_attrs` entry (builtin types are
never registered), i.e. `configurationError`. -/
def refArrowForChild (id_attrs : List (PyType × String)) (entity : Entity)
    (child : String × Value) : Except Err Arrow :=
  match entity_name id_attrs entity with
  | .error err => .error err
  | .ok parent_name =>
    match child.2 with
    | .entity c =>
      match entity_name id_attrs c with
      | .error err => .error err
      | .ok child_name =>
        .ok { src_name := slugify parent_name
              dst_name := slugify child_name
              key := child.1
              value := none
              guessed := false
              src_type := entity.type_
              dst_type := c.type_ }
    | _ => .error Err.configurationError

/-- The reference arrows contributed by one entity: each `(attr_name, child)`
yield of `get_children`, in order, becomes one arrow; the first failure
aborts. -/
def entityRefArrows (config : Configuration) (entity : Entity) : Except Err (List Arrow) :=
  match get_children config.attrs_with_child_refs entity with
  | .error err => .error err
  | .ok children =>
    children.foldlM (fun arrows child =>
      match refArrowForChild config.id_attrs entity child with
      | .error err => .error err
      | .ok a => .ok (arrows ++ [a])) []

/-- `entityRefArrows` as a plain list (defaulting on failure). -/
def entityRefArrowsD (config : Configuration) (entity : Entity) : List Arrow :=
  (entityRefArrows config entity).toOption.getD []

def make_arrows_from_python_refs (config : Configuration) (entities : List Entity) :
    Except Err (List Arrow) :=
  entities.foldlM (fun arrows entity =>
    match entityRefArrows config entity with
    | .error err => .error err
    | .ok ra => .ok (arrows ++ ra)) []

def make_arrows (config : Configuration) (entities : List Entity) : Except Err (List Arrow) := do
  let guessed ← make_guessed_arrows_from_attr_string_values config entities
  let refs ← make_arrows_from_python_refs config entities
  pure (guessed ++ refs)

/-! ### Source translation: arrow combination -/

/-- `frozenset([src, dst])`, canonically represented as the sorted pair. -/
def uspair (a b : String) : String × String :=
  if strLeb a b then (a, b) else (b, a)

structure Index where
  by_src_dst_name_pairs : List ((String × String) × List Arrow)
  by_undirected_src_dst_name_pairs : List ((String × String) × List Arrow)

def make_index (arrows : List Arrow) : Index :=
  arrows.foldl (fun idx a =>
    { by_src_dst_name_pairs :=
        dupd idx.by_src_dst_name_pairs (a.src_name, a.dst_name) [] (fun s => sadd s a)
      by_undirected_src_dst_name_pairs :=
        dupd idx.by_undirected_src_dst_name_pairs (uspair a.src_name a.dst_name) []
          (fun s => sadd s a) })
    ⟨[], []⟩

/-- `Index.grouped_by_undirected_edge_and_value` (despite the name, the source
groups by the undirected node pair alone): returns the nonempty groups in
index order together with the arrows left ungrouped. -/
def Index.grouped_by_undirected_edge_and_value (idx : Index) (arrows : List Arrow) :
    List ((String × String) × List Arrow) × List Arrow :=
  idx.by_undirected_src_dst_name_pairs.foldl (fun gu ng =>
    let matching := ng.2.filter (fun a => a ∈ gu.2)
    let ungrouped := gu.2.filter (fun a => a ∉ matching)
    if matching.isEmpty then (gu.1, ungrouped)
    else (gu.1 ++ [(ng.1, matching)], ungrouped))
    ([], sdedup arrows)

def Index.grouped_by_directed_edge (idx : Index) (arrows : List Arrow) :
    List ((String × String) × List Arrow) :=
  idx.by_src_dst_name_pairs.foldl (fun acc ng =>
    let matching := ng.2.filter (fun a => a ∈ arrows)
    if matching.isEmpty then acc else acc ++ [(ng.1, matching)]) []

/-- `make_label`: the sorted, deduplicated keys of a group, slugified and
joined with `<br/>`. -/
def make_label (arrows : List Arrow) : String :=
  String.intercalate "<br/>" ((sortStr (sdedup (arrows.map Arrow.key))).map slugify)

/-- `combine_arrows` from the source.  Phase 1 merges guessed arrows per
undirected node pair into one bidirectional `DotArrow` (unpacking the
frozenset key of a self-pair into two names raises `ValueError` in the
source, modelled as `valueError`); phase 2 merges what remains per directed
pair. -/
def combine_arrows (_rules : Option Unit) (arrows_ : List Arrow) :
    Except Err (List DotArrow) := do
  let index := make_index arrows_
  let arrows := sdedup arrows_
  let guessed := arrows.filter (fun a => a.guessed)
  let not_guessed := arrows.filter (fun a => !a.guessed)
  let gu := index.grouped_by_undirected_edge_and_value guessed
  let r1 ← gu.1.mapM (fun ng =>
    if ng.1.1 = ng.1.2 then Except.error Err.valueError
    else pure (DotArrow.make ng.1.1 ng.1.2 (some (make_label ng.2)) true))
  let remaining := gu.2 ++ not_guessed
  let r2 := (index.grouped_by_directed_edge remaining).map (fun ng =>
    DotArrow.make ng.1.1 ng.1.2 (some (make_label ng.2)) false)
  pure (r1 ++ r2)

/-! ### Source translation: rendering -/

def cmpOptStr : Option String → Option String → Ordering
  | none, none => .eq
  | none, some _ => .lt
  | some _, none => .gt
  | some a, some b => cmpStr a b

def cmpBool : Bool → Bool → Ordering
  | false, false => .eq
  | false, true => .lt
  | true, false => .gt
  | true, true => .eq

def ordThen : Ordering → Ordering → Ordering
  | .eq, o => o
  | o, _ => o

/-- Python tuple comparison on `DotArrow` named tuples:
`(src, dst, label, bidirectional)` lexicographically. -/
def cmpDot (a b : DotArrow) : Ordering :=
  ordThen (cmpStr a.src b.src)
    (ordThen (cmpStr a.dst b.dst)
      (ordThen (cmpOptStr a.label b.label) (cmpBool a.bidirectional b.bidirectional)))

def dotLe (a b : DotArrow) : Prop := cmpDot a b ≠ .gt

instance : DecidableRel dotLe := fun a b => inferInstanceAs (Decidable (cmpDot a b ≠ .gt))

/-- Python `sorted` on `DotArrow`s. -/
def sortDot (l : List DotArrow) : List DotArrow :=
  List.insertionSort dotLe l

def render_arrow_line (arrow : DotArrow) : String :=
  match arrow.label with
  | none =>
    if arrow.bidirectional then arrow.src ++ "->" ++ arrow.dst ++ " [ dir=\"both\"]"
    else arrow.src ++ "->" ++ arrow.dst
  | some label =>
    if arrow.bidirectional then
      arrow.src ++ "->" ++ arrow.dst ++ " [ label= <" ++ label ++ "> dir=\"both\" ]"
    else arrow.src ++ "->" ++ arrow.dst ++ " [ label= <" ++ label ++ "> ]"

/-- `render_to_dot`: the deduplicated node names in sorted order, then the
sorted edges. -/
def render_to_dot (nodes : List Node) (arrows : List DotArrow) : List String :=
  sortStr (sdedup (nodes.map Node.name)) ++ (sortDot arrows).map render_arrow_line

def make_rules (_config : Configuration) : Option Unit :=
  none

def make_nodes (config : Configuration) (entities : List Entity) : Except Err (List Node) :=
  entities.mapM (fun entity => do
    pure (Node.mk (slugify (← entity_name config.id_attrs entity))))

def diagram (config : Configuration) (entities : List Entity) : Except Err (List String) := do
  let arrows ← make_arrows config entities
  let rules := make_rules config
  let dot_arrows ← combine_arrows rules arrows
  let nodes ← make_nodes config entities
  pure (render_to_dot nodes dot_arrows)

/-! ### Proof-support definitions -/

/-- A lawful three-way comparator: the shape shared by all the orderings the
renderer relies on. -/
structure LawfulCmp {α : Type} (cmp : α → α → Ordering) : Prop where
  eq_iff : ∀ a b, cmp a b = .eq ↔ a = b
  gt_iff : ∀ a b, cmp a b = .gt ↔ cmp b a = .lt
  lt_trans : ∀ a b c, cmp a b = .lt → cmp b c = .lt → cmp a c = .lt

/-- The tuple a `DotArrow` compares by in Python: its fields in order. -/
def dotKey (a : DotArrow) : String × String × Option String × Bool :=
  (a.src, a.dst, a.label, a.bidirectional)

/-- The ASCII uppercase range, as `str.lower` sees it. -/
def isUpperAZ (c : Char) : Prop := 65 ≤ c.toNat ∧ c.toNat ≤ 90

instance (c : Char) : Decidable (isUpperAZ c) :=
  inferInstanceAs (Decidable (_ ∧ _))

/-- Adjacent-space freedom: the state in which `re.sub(r"\s+", " ", ·)` is the
identity. -/
def NoAdjSpaces (l : List Char) : Prop :=
  List.Chain' (fun a b => ¬(a = ' ' ∧ b = ' ')) l

/-- `stripSpaces` splits into leading and trailing halves. -/
def dropTrailingSpaces (l : List Char) : List Char :=
  (l.reverse.dropWhile (fun c => c = ' ')).reverse

/-- The entity name as a plain string (defaulting on failure); used to state
hypotheses about name distinctness. -/
def entityNameD (config : Configuration) (entity : Entity) : String :=
  (entity_name config.id_attrs entity).toOption.getD ""

/-- What it means, extensionally, for a guessed arrow to be produced from the
entity list: two listed entities with distinct entity names share an
attribute value `v`, and the arrow records the source's key `k` for it. -/
def GuessedArrowSpec (config : Configuration) (l : List Entity) (a : Arrow) : Prop :=
  ∃ e1 ∈ l, ∃ e2 ∈ l,
    entityNameD config e1 ≠ entityNameD config e2 ∧
    ∃ k v, (k, v) ∈ get_attrs config.synonymous_attrs e1 ∧
      (∃ k2, (k2, v) ∈ get_attrs config.synonymous_attrs e2) ∧
      a = guessArrowOfKV (e1.type_, entityNameD config e1, e2.type_, entityNameD config e2)
        (k, v)

/-- Written from the spec's words (§3/§4.2) for comparison with
`filter_out_synonymous_attributes`: keep every non-synonym pair, and of the
pairs whose key lies in the synonym list keep exactly the first encountered.
The boolean records whether a synonym pair has been kept already. -/
def keepFirstSynonymSpec (synonyms : List String) :
    List (String × String) → Bool → List (String × String)
  | [], _ => []
  | kv :: rest, seenFlag =>
    if kv.1 ∈ synonyms then
      if seenFlag then keepFirstSynonymSpec synonyms rest true
      else kv :: keepFirstSynonymSpec synonyms rest true
    else kv :: keepFirstSynonymSpec synonyms rest seenFlag

/-- The loop body of `make_index`, named so the fold can be reasoned about
step by step (definitionally equal to the lambda in `make_index`). -/
def idxStep (idx : Index) (a : Arrow) : Index :=
  { by_src_dst_name_pairs := dupd idx.by_src_dst_name_pairs (a.src_name, a.dst_name) []
      (fun s => sadd s a)
    by_undirected_src_dst_name_pairs := dupd idx.by_undirected_src_dst_name_pairs
      (uspair a.src_name a.dst_name) [] (fun s => sadd s a) }

/-- The loop body of `Index.grouped_by_undirected_edge_and_value`, with the
`let`s expanded (definitionally equal to the lambda in the source
translation). -/
def guStep (gu : List ((String × String) × List Arrow) × List Arrow)
    (ng : (String × String) × List Arrow) :
    List ((String × String) × List Arrow) × List Arrow :=
  if (ng.2.filter (fun a => a ∈ gu.2)).isEmpty then
    (gu.1, gu.2.filter (fun a => a ∉ ng.2.filter (fun b => b ∈ gu.2)))
  else (gu.1 ++ [(ng.1, ng.2.filter (fun a => a ∈ gu.2))],
    gu.2.filter (fun a => a ∉ ng.2.filter (fun b => b ∈ gu.2)))

/-- The loop body of `Index.grouped_by_directed_edge`, with the `let`
expanded. -/
def gdStep (arrows : List Arrow) (acc : List ((String × String) × List Arrow))
    (ng : (String × String) × List Arrow) : List ((String × String) × List Arrow) :=
  if (ng.2.filter (fun a => a ∈ arrows)).isEmpty then acc
  else acc ++ [(ng.1, ng.2.filter (fun a => a ∈ arrows))]

/-- What one index entry contributes to a grouping pass over the arrow pool
`u`: the entry's arrows that lie in `u`, or nothing if none do. -/
def groupCollect (u : List Arrow) (ng : (String × String) × List Arrow) :
    Option ((String × String) × List Arrow) :=
  if (ng.2.filter (fun a => a ∈ u)).isEmpty then none
  else some (ng.1, ng.2.filter (fun a => a ∈ u))

/-- The per-group body of `combine_arrows`' first phase. -/
def r1Step (ng : (String × String) × List Arrow) : Except Err DotArrow :=
  if ng.1.1 = ng.1.2 then Except.error Err.valueError
  else pure (DotArrow.make ng.1.1 ng.1.2 (some (make_label ng.2)) true)

/-- The groups `combine_arrows`' first phase ends up merging: per undirected
index entry, its guessed arrows (shown equal to phase 1's fold result). -/
def guessedGroups (A : List Arrow) : List ((String × String) × List Arrow) :=
  (make_index A).by_undirected_src_dst_name_pairs.filterMap
    (groupCollect ((sdedup A).filter (fun a => a.guessed)))

/-- The groups of `combine_arrows`' second phase: per directed index entry,
its non-guessed arrows. -/
def directGroups (A : List Arrow) : List ((String × String) × List Arrow) :=
  (make_index A).by_src_dst_name_pairs.filterMap
    (groupCollect ((sdedup A).filter (fun a => !a.guessed)))

/-- The label `combine_arrows` gives the merged bidirectional edge for the
undirected node pair `p`, expressed through the full arrow list: the keys of
the guessed arrows joining that pair. -/
def undirectedLabel (A : List Arrow) (p : String × String) : String :=
  make_label (A.filter (fun b => b.guessed && decide (uspair b.src_name b.dst_name = p)))

/-- The label `combine_arrows` gives the merged directed edge for the node
pair `p`: the keys of the non-guessed arrows with exactly that source and
destination. -/
def directedLabel (A : List Arrow) (p : String × String) : String :=
  make_label (A.filter (fun b => !b.guessed && decide ((b.src_name, b.dst_name) = p)))

/-- What `combine_arrows` produces, extensionally: one bidirectional edge per
undirected pair joined by some guessed arrow, labelled with all the guessed
keys of that pair, and one directed edge per ordered pair carrying some
non-guessed arrow, labelled with its keys.  The right-hand sides depend only
on which arrows occur in `A`, not on their order or multiplicity. -/
def CombinedArrowSpec (A : List Arrow) (d : DotArrow) : Prop :=
  (∃ a ∈ A, a.guessed = true ∧
    d = DotArrow.make (uspair a.src_name a.dst_name).1 (uspair a.src_name a.dst_name).2
      (some (undirectedLabel A (uspair a.src_name a.dst_name))) true)
  ∨ (∃ a ∈ A, a.guessed = false ∧
    d = DotArrow.make a.src_name a.dst_name
      (some (directedLabel A (a.src_name, a.dst_name))) false)

/-! ### Concrete scenario inputs -/

def WidgetT : PyType := ⟨1, "Widget"⟩

def LozengeT : PyType := ⟨2, "Lozenge"⟩

def ParentT : PyType := ⟨3, "Parent"⟩

def ChildT : PyType := ⟨4, "Child"⟩

/-- `Widget(ref="1", lozenge="1", part="1")` of spec §8 Scenario 1. -/
def widget1 : Entity :=
  .mk WidgetT false [("ref", .str "1"), ("lozenge", .str "1"), ("part", .str "1")]

/-- `Lozenge(ref="1", widget="1")` of spec §8 Scenario 1. -/
def lozenge1 : Entity := .mk LozengeT false [("ref", .str "1"), ("widget", .str "1")]

def scenario1_config : Configuration :=
  { id_attrs := [(WidgetT, "ref"), (LozengeT, "ref")] }

/-- `Child("child1")` and `Child("child2")` of spec §8 Scenario 2. -/
def child1 : Entity := .mk ChildT false [("id", .str "child1")]

def child2 : Entity := .mk ChildT false [("id", .str "child2")]

/-- `Parent(reference="ref", children=[child1, child2])` of spec §8 Scenario 2. -/
def parentRef : Entity :=
  .mk ParentT false [("reference", .str "ref"), ("children", .entityList [child1, child2])]

def scenario2_config : Configuration :=
  { id_attrs := [(ParentT, "reference"), (ChildT, "id")]
    attrs_with_child_refs := [(ParentT, ["children"])] }

/-- Inputs refuting permutation invariance: two entities of one type share the
identity value "1" (hence the entity name "A_1"), and only the first carries
the attribute value "v" matching the third entity's identity. -/
def permCexA : PyType := ⟨1, "A"⟩

def permCexB : PyType := ⟨2, "B"⟩

def permCexE1 : Entity := .mk permCexA false [("ref", .str "1"), ("x", .str "v")]

def permCexE2 : Entity := .mk permCexA false [("ref", .str "1"), ("x", .str "w")]

def permCexF : Entity := .mk permCexB false [("ref", .str "v")]

def permCexConfig : Configuration :=
  { id_attrs := [(permCexA, "ref"), (permCexB, "ref")] }

/-- Inputs refuting the synonym-representative claim: synonyms `["r", "a"]`
with the entity's attributes iterated in sorted order `a`, `r`. -/
def synCexT : PyType := ⟨7, "T"⟩

def synCexEntity : Entity := .mk synCexT false [("a", .str "1"), ("r", .str "2")]

def synCexAttrs : List (PyType × List String) := [(synCexT, ["r", "a"])]

/-- Input refuting the node-line count claim: the same widget listed twice. -/
def dupWidget : Entity := .mk WidgetT false [("ref", .str "1")]

def dupConfig : Configuration := { id_attrs := [(WidgetT, "ref")] }

/-- Inputs refuting self-loop exclusion: class names "A" and "a" slugify to
the same token, so the distinct entity names "A_x" and "a_x" collide after
slugification. -/
def slugCexA : PyType := ⟨1, "A"⟩

def slugCexa : PyType := ⟨2, "a"⟩

def slugCexE1 : Entity := .mk slugCexA false [("ref", .str "x"), ("m", .str "v")]

def slugCexE2 : Entity := .mk slugCexa false [("ref", .str "x"), ("m", .str "v")]

def slugCexConfig : Configuration :=
  { id_attrs := [(slugCexA, "ref"), (slugCexa, "ref")] }

/-- An entity whose type has no `id_attrs` entry in the configurations used
below. -/
def missingT : PyType := ⟨9, "Missing"⟩

def missingEntity : Entity := .mk missingT false [("ref", .str "1")]

/-! ### Lemmas: set operations -/

theorem mem_sadd {α : Type} [DecidableEq α] {s : List α} {x y : α} :
    y ∈ sadd s x ↔ y ∈ s ∨ y = x := by
  unfold sadd
  split
  · rename_i hx
    constructor
    · exact fun h => Or.inl h
    · rintro (h | rfl) <;> assumption
  · simp [List.mem_append]

theorem nodup_sadd {α : Type} [DecidableEq α] {s : List α} (x : α) (h : s.Nodup) :
    (sadd s x).Nodup := by
  unfold sadd
  split
  · exact h
  · rename_i hx
    simpa [List.nodup_append, h] using hx

theorem mem_foldl_sadd {α : Type} [DecidableEq α] (l : List α) (s : List α) (y : α) :
    y ∈ l.foldl sadd s ↔ y ∈ s ∨ y ∈ l := by
  induction l generalizing s with
  | nil => simp
  | cons a l ih =>
    rw [List.foldl_cons, ih, mem_sadd, List.mem_cons]
    tauto

theorem nodup_foldl_sadd {α : Type} [DecidableEq α] (l : List α) (s : List α) (h : s.Nodup) :
    (l.foldl sadd s).Nodup := by
  induction l generalizing s with
  | nil => exact h
  | cons a l ih => exact ih _ (nodup_sadd a h)

theorem mem_sdedup {α : Type} [DecidableEq α] {l : List α} {x : α} :
    x ∈ sdedup l ↔ x ∈ l := by
  unfold sdedup
  rw [mem_foldl_sadd]
  simp

theorem nodup_sdedup {α : Type} [DecidableEq α] (l : List α) : (sdedup l).Nodup :=
  nodup_foldl_sadd l [] List.nodup_nil

theorem foldl_sadd_of_disjoint {α : Type} [DecidableEq α] :
    ∀ (l s : List α), l.Nodup → (∀ x ∈ s, x ∉ l) → l.foldl sadd s = s ++ l := by
  intro l
  induction l with
  | nil => intro s _ _; simp
  | cons a l ih =>
    intro s hnd hs
    rw [List.foldl_cons]
    have ha : a ∉ s := fun hc => hs a hc (List.mem_cons_self a l)
    have hset : sadd s a = s ++ [a] := by simp [sadd, ha]
    have hcond : ∀ x ∈ s ++ [a], x ∉ l := by
      intro x hx
      rcases List.mem_append.1 hx with h1 | h1
      · intro hc
        exact hs x h1 (List.mem_cons_of_mem a hc)
      · rw [List.mem_singleton.1 h1]
        exact (List.nodup_cons.1 hnd).1
    rw [hset, ih (s ++ [a]) (List.Nodup.of_cons hnd) hcond]
    simp

theorem sdedup_eq_self {α : Type} [DecidableEq α] {l : List α} (h : l.Nodup) :
    sdedup l = l := by
  unfold sdedup
  simpa using foldl_sadd_of_disjoint l [] h (by simp)

theorem sdedup_perm {α : Type} [DecidableEq α] {l l' : List α}
    (h : ∀ x, x ∈ l ↔ x ∈ l') : List.Perm (sdedup l) (sdedup l') := by
  rw [List.perm_ext_iff_of_nodup (nodup_sdedup l) (nodup_sdedup l')]
  intro a
  rw [mem_sdedup, mem_sdedup]
  exact h a

/-! ### Lemmas: dict operations -/

theorem dlookup_append {K V : Type} [DecidableEq K] (k : K) (d₁ d₂ : List (K × V)) :
    dlookup k (d₁ ++ d₂) =
      match dlookup k d₁ with
      | some v => some v
      | none => dlookup k d₂ := by
  induction d₁ with
  | nil => simp [dlookup]
  | cons kv d ih =>
    by_cases h : kv.1 = k <;> simp [dlookup, h, ih]

theorem dlookup_eq_none_iff_any {K V : Type} [DecidableEq K] (k : K) (d : List (K × V)) :
    dlookup k d = none ↔ d.any (fun kv => decide (kv.1 = k)) = false := by
  induction d with
  | nil => simp [dlookup]
  | cons kv d ih =>
    by_cases h : kv.1 = k <;> simp [dlookup, h, ih]

theorem dlookup_map_update {K V : Type} [DecidableEq K] (k k' : K) (f : V → V)
    (d : List (K × V)) :
    dlookup k' (d.map (fun kv => if kv.1 = k then (k, f kv.2) else kv)) =
      if k' = k then (dlookup k d).map f else dlookup k' d := by
  induction d with
  | nil => by_cases h : k' = k <;> simp [dlookup, h]
  | cons kv d ih =>
    by_cases h1 : kv.1 = k
    · by_cases h2 : k' = k
      · subst h2
        simp [dlookup, h1, ih]
      · have h3 : ¬ kv.1 = k' := by rw [h1]; exact fun hc => h2 hc.symm
        have h4 : ¬ k = k' := fun hc => h2 hc.symm
        simp [dlookup, h1, h2, h3, h4, ih]
    · by_cases h2 : kv.1 = k'
      · have h3 : ¬ k' = k := by rw [← h2]; exact h1
        simp [dlookup, h1, h2, h3]
      · simp [dlookup, h1, h2, ih]

theorem dlookup_dupd {K V : Type} [DecidableEq K] (d : List (K × V)) (k k' : K) (dflt : V)
    (f : V → V) :
    dlookup k' (dupd d k dflt f) =
      if k' = k then some (f ((dlookup k d).getD dflt)) else dlookup k' d := by
  unfold dupd
  split
  · rename_i hany
    rw [dlookup_map_update]
    by_cases h : k' = k
    · subst h
      rcases hsome : dlookup k' d with _ | v
    -- the `any` check succeeded, so the key is present
      · rw [dlookup_eq_none_iff_any] at hsome
        rw [hsome] at hany
        cases hany
      · simp
    · simp [h]
  · rename_i hany
    have hnone : dlookup k d = none := by
      rw [dlookup_eq_none_iff_any]
      cases hb : d.any (fun kv => decide (kv.1 = k)) with
      | false => rfl
      | true => exact absurd hb hany
    rw [dlookup_append]
    by_cases h : k' = k
    · subst h
      simp [hnone, dlookup]
    · have h2 : ¬ k = k' := fun hc => h hc.symm
      rcases hsome : dlookup k' d with _ | v
      · simp [hsome, dlookup, h, h2]
      · simp [hsome, h]

theorem dset_eq_dupd {K V : Type} [DecidableEq K] (d : List (K × V)) (k : K) (v : V) :
    dset d k v = dupd d k v (fun _ => v) := rfl

theorem dlookup_dset {K V : Type} [DecidableEq K] (d : List (K × V)) (k k' : K) (v : V) :
    dlookup k' (dset d k v) = if k' = k then some v else dlookup k' d := by
  rw [dset_eq_dupd, dlookup_dupd]

theorem dset_of_absent {K V : Type} [DecidableEq K] {d : List (K × V)} {k : K} (v : V)
    (h : dlookup k d = none) : dset d k v = d ++ [(k, v)] := by
  rw [dlookup_eq_none_iff_any] at h
  simp [dset, h]

/-! ### Lemmas: lawful three-way comparators -/

theorem LawfulCmp.le_total {α : Type} {cmp : α → α → Ordering} (h : LawfulCmp cmp)
    (a b : α) : cmp a b ≠ .gt ∨ cmp b a ≠ .gt := by
  cases m : cmp a b with
  | lt => exact Or.inl (by simp [m])
  | eq => exact Or.inl (by simp [m])
  | gt =>
    right
    rw [h.gt_iff] at m
    simp [m]

theorem LawfulCmp.le_trans {α : Type} {cmp : α → α → Ordering} (h : LawfulCmp cmp)
    {a b c : α} (h1 : cmp a b ≠ .gt) (h2 : cmp b c ≠ .gt) : cmp a c ≠ .gt := by
  cases m1 : cmp a b with
  | lt =>
    cases m2 : cmp b c with
    | lt => simp [h.lt_trans a b c m1 m2]
    | eq =>
      rcases (h.eq_iff b c).1 m2
      simp [m1]
    | gt => exact absurd m2 h2
  | eq =>
    rcases (h.eq_iff a b).1 m1
    exact h2
  | gt => exact absurd m1 h1

theorem LawfulCmp.le_antisymm {α : Type} {cmp : α → α → Ordering} (h : LawfulCmp cmp)
    {a b : α} (h1 : cmp a b ≠ .gt) (h2 : cmp b a ≠ .gt) : a = b := by
  cases m1 : cmp a b with
  | lt => exact absurd ((h.gt_iff b a).2 m1) h2
  | eq => exact (h.eq_iff a b).1 m1
  | gt => exact absurd m1 h1

theorem lawful_cmpOfLO {α : Type} [LinearOrder α] : LawfulCmp (cmpOfLO (α := α)) := by
  constructor
  · intro a b
    unfold cmpOfLO
    split
    · rename_i h
      simp [ne_of_lt h]
    · split
      · rename_i h
        simp [(ne_of_lt h).symm]
      · rename_i h1 h2
        simp [le_antisymm (not_lt.1 h2) (not_lt.1 h1)]
  · intro a b
    unfold cmpOfLO
    rcases lt_trichotomy a b with h | h | h
    · simp [h, not_lt.2 h.le]
    · simp [h, lt_irrefl]
    · simp [h, not_lt.2 h.le]
  · intro a b c h1 h2
    unfold cmpOfLO at *
    split at h1
    · rename_i hab
      split at h2
      · rename_i hbc
        simp [hab.trans hbc]
      · split at h2 <;> cases h2
    · split at h1
      · cases h1
      · cases h1

theorem cmpOfLO_lt_iff {α : Type} [LinearOrder α] {a b : α} : cmpOfLO a b = .lt ↔ a < b := by
  unfold cmpOfLO
  split
  · rename_i h
    simp [h]
  · rename_i h
    split <;> simp [h]

theorem cmpOfLO_eq_iff {α : Type} [LinearOrder α] {a b : α} : cmpOfLO a b = .eq ↔ a = b :=
  lawful_cmpOfLO.eq_iff a b

theorem cmpOfLO_gt_iff {α : Type} [LinearOrder α] {a b : α} : cmpOfLO a b = .gt ↔ b < a := by
  rw [lawful_cmpOfLO.gt_iff, cmpOfLO_lt_iff]

theorem cmpCharList_cons_cons (a b : Char) (as bs : List Char) :
    cmpCharList (a :: as) (b :: bs) =
      match cmpOfLO a b with
      | .eq => cmpCharList as bs
      | o => o := rfl

theorem lawful_cmpCharList : LawfulCmp cmpCharList := by
  constructor
  · intro as
    induction as with
    | nil => intro bs; cases bs <;> simp [cmpCharList]
    | cons a as ih =>
      intro bs
      cases bs with
      | nil => simp [cmpCharList]
      | cons b bs =>
        rw [cmpCharList_cons_cons]
        cases m : cmpOfLO a b with
        | lt =>
          have hne : a ≠ b := ne_of_lt (cmpOfLO_lt_iff.1 m)
          simp [hne]
        | eq =>
          rcases cmpOfLO_eq_iff.1 m
          simp [ih bs]
        | gt =>
          have hne : a ≠ b := (ne_of_lt (cmpOfLO_gt_iff.1 m)).symm
          simp [hne]
  · intro as
    induction as with
    | nil => intro bs; cases bs <;> simp [cmpCharList]
    | cons a as ih =>
      intro bs
      cases bs with
      | nil => simp [cmpCharList]
      | cons b bs =>
        rw [cmpCharList_cons_cons, cmpCharList_cons_cons]
        cases m : cmpOfLO a b with
        | lt =>
          have mba : cmpOfLO b a = .gt := cmpOfLO_gt_iff.2 (cmpOfLO_lt_iff.1 m)
          rw [mba]
          simp
        | eq =>
          rcases cmpOfLO_eq_iff.1 m
          rw [cmpOfLO_eq_iff.2 rfl]
          exact ih bs
        | gt =>
          have mba : cmpOfLO b a = .lt := cmpOfLO_lt_iff.2 (cmpOfLO_gt_iff.1 m)
          rw [mba]
          simp
  · intro as
    induction as with
    | nil =>
      intro bs cs h1 h2
      cases bs with
      | nil => exact h2
      | cons b bs =>
        cases cs with
        | nil => simp [cmpCharList] at h2
        | cons c cs => simp [cmpCharList]
    | cons a as ih =>
      intro bs cs h1 h2
      cases bs with
      | nil => simp [cmpCharList] at h1
      | cons b bs =>
        cases cs with
        | nil => simp [cmpCharList] at h2
        | cons c cs =>
          rw [cmpCharList_cons_cons] at h1 h2 ⊢
          cases m1 : cmpOfLO a b with
          | lt =>
            cases m2 : cmpOfLO b c with
            | lt =>
              have m3 : cmpOfLO a c = .lt :=
                cmpOfLO_lt_iff.2 ((cmpOfLO_lt_iff.1 m1).trans (cmpOfLO_lt_iff.1 m2))
              rw [m3]
            | eq =>
              rcases cmpOfLO_eq_iff.1 m2
              rw [m1]
            | gt =>
              rw [m2] at h2
              exact Ordering.noConfusion h2
          | eq =>
            rcases cmpOfLO_eq_iff.1 m1
            rw [m1] at h1
            cases m2 : cmpOfLO a c with
            | lt => rfl
            | eq =>
              rcases cmpOfLO_eq_iff.1 m2
              rw [m2] at h2
              exact ih bs cs h1 h2
            | gt =>
              rw [m2] at h2
              exact Ordering.noConfusion h2
          | gt =>
            rw [m1] at h1
            exact Ordering.noConfusion h1

theorem lawful_cmpStr : LawfulCmp cmpStr := by
  constructor
  · intro a b
    rw [cmpStr, lawful_cmpCharList.eq_iff]
    exact ⟨fun h => String.toList_inj.1 h, fun h => by rw [h]⟩
  · intro a b
    exact lawful_cmpCharList.gt_iff a.data b.data
  · intro a b c
    exact lawful_cmpCharList.lt_trans a.data b.data c.data

theorem strLeb_iff_cmp {a b : String} : strLeb a b = true ↔ cmpStr a b ≠ .gt := by
  unfold strLeb
  rcases m : cmpStr a b <;> simp [m]

theorem strLe_total : ∀ a b : String, strLe a b ∨ strLe b a := by
  intro a b
  unfold strLe
  rw [strLeb_iff_cmp, strLeb_iff_cmp]
  exact lawful_cmpStr.le_total a b

instance : IsTotal String strLe := ⟨strLe_total⟩

instance : IsTrans String strLe :=
  ⟨fun a b c h1 h2 => by
    unfold strLe at *
    rw [strLeb_iff_cmp] at *
    exact lawful_cmpStr.le_trans h1 h2⟩

instance : IsAntisymm String strLe :=
  ⟨fun a b h1 h2 => by
    unfold strLe at *
    rw [strLeb_iff_cmp] at *
    exact lawful_cmpStr.le_antisymm h1 h2⟩

/-! ### Lemmas: the DotArrow comparator -/

theorem ordThen_eq_eq {o1 o2 : Ordering} : ordThen o1 o2 = .eq ↔ o1 = .eq ∧ o2 = .eq := by
  cases o1 <;> simp [ordThen]

theorem ordThen_eq_lt {o1 o2 : Ordering} :
    ordThen o1 o2 = .lt ↔ o1 = .lt ∨ (o1 = .eq ∧ o2 = .lt) := by
  cases o1 <;> simp [ordThen]

theorem ordThen_eq_gt {o1 o2 : Ordering} :
    ordThen o1 o2 = .gt ↔ o1 = .gt ∨ (o1 = .eq ∧ o2 = .gt) := by
  cases o1 <;> simp [ordThen]

theorem LawfulCmp.eq_symm {α : Type} {cmp : α → α → Ordering} (h : LawfulCmp cmp)
    {a b : α} (m : cmp a b = .eq) : cmp b a = .eq := by
  rcases (h.eq_iff a b).1 m
  exact (h.eq_iff a a).2 rfl

theorem LawfulCmp.prodLex {α β : Type} {cmp1 : α → α → Ordering} {cmp2 : β → β → Ordering}
    (h1 : LawfulCmp cmp1) (h2 : LawfulCmp cmp2) :
    LawfulCmp (fun x y : α × β => ordThen (cmp1 x.1 y.1) (cmp2 x.2 y.2)) := by
  constructor
  · intro x y
    simp only [ordThen_eq_eq, h1.eq_iff, h2.eq_iff]
    exact (Prod.ext_iff).symm
  · intro x y
    simp only [ordThen_eq_gt, ordThen_eq_lt, h1.gt_iff, h2.gt_iff]
    constructor
    · rintro (m | ⟨m, m2⟩)
      · exact Or.inl m
      · exact Or.inr ⟨h1.eq_symm m, m2⟩
    · rintro (m | ⟨m, m2⟩)
      · exact Or.inl m
      · exact Or.inr ⟨h1.eq_symm m, m2⟩
  · intro x y z hxy hyz
    simp only [ordThen_eq_lt] at hxy hyz ⊢
    rcases hxy with m1 | ⟨m1, m1'⟩ <;> rcases hyz with m2 | ⟨m2, m2'⟩
    · exact Or.inl (h1.lt_trans _ _ _ m1 m2)
    · have e : y.1 = z.1 := (h1.eq_iff _ _).1 m2
      exact Or.inl (e ▸ m1)
    · have e : x.1 = y.1 := (h1.eq_iff _ _).1 m1
      exact Or.inl (e.symm ▸ m2)
    · have e1 : x.1 = y.1 := (h1.eq_iff _ _).1 m1
      exact Or.inr ⟨e1.symm ▸ m2, h2.lt_trans _ _ _ m1' m2'⟩

theorem LawfulCmp.comap {α β : Type} {cmp : β → β → Ordering} (h : LawfulCmp cmp)
    (f : α → β) (hf : Function.Injective f) : LawfulCmp (fun x y => cmp (f x) (f y)) := by
  constructor
  · intro a b
    rw [h.eq_iff]
    exact ⟨fun m => hf m, fun m => by rw [m]⟩
  · intro a b
    exact h.gt_iff (f a) (f b)
  · intro a b c
    exact h.lt_trans (f a) (f b) (f c)

theorem lawful_cmpOptStr : LawfulCmp cmpOptStr := by
  constructor
  · rintro (_ | a) (_ | b) <;> simp [cmpOptStr, lawful_cmpStr.eq_iff]
  · rintro (_ | a) (_ | b) <;> simp [cmpOptStr, lawful_cmpStr.gt_iff]
  · rintro (_ | a) (_ | b) (_ | c) h1 h2 <;> simp_all [cmpOptStr]
    exact lawful_cmpStr.lt_trans a b c h1 h2

theorem lawful_cmpBool : LawfulCmp cmpBool := by
  constructor
  · decide
  · decide
  · decide

theorem dotKey_injective : Function.Injective dotKey := by
  intro a b h
  cases a
  cases b
  simp [dotKey] at h
  simp [h.1, h.2.1, h.2.2.1, h.2.2.2]

theorem cmpDot_eq_comap (a b : DotArrow) :
    cmpDot a b =
      (fun x y : String × String × Option String × Bool =>
        ordThen (cmpStr x.1 y.1)
          (ordThen (cmpStr x.2.1 y.2.1)
            (ordThen (cmpOptStr x.2.2.1 y.2.2.1) (cmpBool x.2.2.2 y.2.2.2))))
        (dotKey a) (dotKey b) := rfl

theorem lawful_cmpDot : LawfulCmp cmpDot := by
  have h4 : LawfulCmp (fun x y : Option String × Bool =>
      ordThen (cmpOptStr x.1 y.1) (cmpBool x.2 y.2)) :=
    lawful_cmpOptStr.prodLex lawful_cmpBool
  have h3 : LawfulCmp (fun x y : String × Option String × Bool =>
      ordThen (cmpStr x.1 y.1) (ordThen (cmpOptStr x.2.1 y.2.1) (cmpBool x.2.2 y.2.2))) :=
    lawful_cmpStr.prodLex h4
  have h2 : LawfulCmp (fun x y : String × String × Option String × Bool =>
      ordThen (cmpStr x.1 y.1)
        (ordThen (cmpStr x.2.1 y.2.1)
          (ordThen (cmpOptStr x.2.2.1 y.2.2.1) (cmpBool x.2.2.2 y.2.2.2)))) :=
    lawful_cmpStr.prodLex h3
  have := h2.comap dotKey dotKey_injective
  constructor
  · intro a b
    rw [cmpDot_eq_comap]
    exact this.eq_iff a b
  · intro a b
    rw [cmpDot_eq_comap, cmpDot_eq_comap]
    exact this.gt_iff a b
  · intro a b c
    rw [cmpDot_eq_comap, cmpDot_eq_comap, cmpDot_eq_comap]
    exact this.lt_trans a b c

instance : IsTotal DotArrow dotLe := ⟨fun a b => lawful_cmpDot.le_total a b⟩

instance : IsTrans DotArrow dotLe := ⟨fun _ _ _ h1 h2 => lawful_cmpDot.le_trans h1 h2⟩

instance : IsAntisymm DotArrow dotLe := ⟨fun _ _ h1 h2 => lawful_cmpDot.le_antisymm h1 h2⟩

/-- Sorting with a total, transitive, antisymmetric relation is canonical: any
two permutation-equal lists sort to the same list. -/
theorem insertionSort_canon {α : Type} {r : α → α → Prop} [DecidableRel r] [IsTotal α r]
    [IsTrans α r] [IsAntisymm α r] {l l' : List α} (h : List.Perm l l') :
    List.insertionSort r l = List.insertionSort r l' :=
  List.eq_of_perm_of_sorted
    ((List.perm_insertionSort r l).trans (h.trans (List.perm_insertionSort r l').symm))
    (List.sorted_insertionSort r l) (List.sorted_insertionSort r l')

theorem sortStr_canon {l l' : List String} (h : List.Perm l l') : sortStr l = sortStr l' :=
  insertionSort_canon h

theorem sortDot_canon {l l' : List DotArrow} (h : List.Perm l l') : sortDot l = sortDot l' :=
  insertionSort_canon h

/-! ### The comparator agrees with the library's string order -/

theorem cmpCharList_lt_iff_lex {as bs : List Char} :
    cmpCharList as bs = .lt ↔ List.Lex (· < ·) as bs := by
  induction as generalizing bs with
  | nil =>
    cases bs with
    | nil => simp [cmpCharList]
    | cons b bs => simp [cmpCharList, List.Lex.nil]
  | cons a as ih =>
    cases bs with
    | nil =>
      simp only [cmpCharList]
      constructor
      · intro h
        exact Ordering.noConfusion h
      · intro h
        exact absurd h (List.Lex.not_nil_right _ _)
    | cons b bs =>
      rw [cmpCharList_cons_cons]
      cases m : cmpOfLO a b with
      | lt =>
        have hlex : List.Lex (· < ·) (a :: as) (b :: bs) :=
          List.Lex.rel (cmpOfLO_lt_iff.1 m)
        simp [hlex]
      | eq =>
        rcases cmpOfLO_eq_iff.1 m
        rw [List.Lex.cons_iff]
        exact ih
      | gt =>
        have hba : b < a := cmpOfLO_gt_iff.1 m
        have hnl : ¬ List.Lex (· < ·) (a :: as) (b :: bs) := by
          intro h
          cases h with
          | cons h' => exact absurd hba (lt_irrefl a)
          | rel h' => exact absurd (hba.trans h') (lt_irrefl b)
        simp [hnl]

theorem strLe_iff_le {a b : String} : strLe a b ↔ a ≤ b := by
  have hgt : cmpStr a b = .gt ↔ List.Lex (· < ·) b.data a.data := by
    rw [lawful_cmpStr.gt_iff]
    exact cmpCharList_lt_iff_lex
  have hlt : b < a ↔ List.Lex (· < ·) b.data a.data := String.lt_iff_toList_lt
  have h1 : strLe a b ↔ cmpStr a b ≠ .gt := strLeb_iff_cmp
  rw [h1]
  constructor
  · intro h
    exact not_lt.1 (fun hba => h (hgt.2 (hlt.1 hba)))
  · intro h hc
    exact absurd (hlt.2 (hgt.1 hc)) (not_lt.2 h)

/-! ### Lemmas: slugify -/

theorem toNat_ofNat_valid {n : Nat} (h : n < 55296) : (Char.ofNat n).toNat = n := by
  rw [Char.ofNat, dif_pos (Or.inl h)]
  rfl

theorem pyLower_fix {c : Char} (h : ¬ isUpperAZ c) : pyLower c = c := by
  unfold pyLower Char.toLower
  exact if_neg h

theorem pyLower_notUpper (c : Char) : ¬ isUpperAZ (pyLower c) := by
  unfold pyLower Char.toLower
  by_cases h : c.toNat ≥ 65 ∧ c.toNat ≤ 90
  · rw [if_pos h]
    have h2 : c.toNat + 32 < 55296 := by omega
    intro hc
    rw [isUpperAZ, toNat_ofNat_valid h2] at hc
    omega
  · rw [if_neg h]
    exact h

theorem punct_not_word {c : Char} (h : isPunct c = true) : isWordChar c = false := by
  have h2 : c = ' ' ∨ c = '-' ∨ c = '.' ∨ c = '/' := by
    have h3 := h
    unfold isPunct at h3
    simp only [Bool.or_eq_true, decide_eq_true_eq, or_assoc] at h3
    exact h3
  rcases h2 with rfl | rfl | rfl | rfl <;> decide

theorem map_fix {α : Type} {f : α → α} : ∀ {l : List α}, (∀ x ∈ l, f x = x) → l.map f = l
  | [], _ => rfl
  | x :: l, h => by
    rw [List.map_cons, h x (List.mem_cons_self x l), map_fix (fun y hy => h y (List.mem_cons_of_mem x hy))]

theorem collapse_cons2 (c1 c2 : Char) (rest : List Char) :
    collapseSpaces (c1 :: c2 :: rest) =
      if c1 = ' ' && c2 = ' ' then collapseSpaces (c2 :: rest)
      else c1 :: collapseSpaces (c2 :: rest) := rfl

theorem mem_collapse {c : Char} : ∀ {l : List Char}, c ∈ collapseSpaces l → c ∈ l
  | [], h => h
  | [_], h => h
  | c1 :: c2 :: rest, h => by
    rw [collapse_cons2] at h
    split at h
    · exact List.mem_cons_of_mem c1 (mem_collapse h)
    · rcases List.mem_cons.1 h with rfl | h2
      · exact List.mem_cons_self _ _
      · exact List.mem_cons_of_mem c1 (mem_collapse h2)

theorem head_collapse : ∀ (c : Char) (rest : List Char),
    (collapseSpaces (c :: rest)).head? = some c := by
  intro c rest
  induction rest generalizing c with
  | nil => rfl
  | cons c2 r2 ih =>
    rw [collapse_cons2]
    split
    · rename_i h
      simp only [Bool.and_eq_true, decide_eq_true_eq] at h
      rw [ih c2, h.1, h.2]
    · simp

theorem noAdj_collapse : ∀ (l : List Char), NoAdjSpaces (collapseSpaces l)
  | [] => List.chain'_nil
  | [c] => List.chain'_singleton c
  | c1 :: c2 :: rest => by
    rw [collapse_cons2]
    split
    · exact noAdj_collapse (c2 :: rest)
    · rename_i h
      unfold NoAdjSpaces
      rw [List.chain'_cons']
      refine ⟨?_, noAdj_collapse (c2 :: rest)⟩
      intro b hb
      rw [head_collapse c2 rest] at hb
      rcases Option.mem_some_iff.1 hb
      intro hc
      rw [hc.1, hc.2] at h
      simp at h

theorem collapse_fix : ∀ {l : List Char}, NoAdjSpaces l → collapseSpaces l = l
  | [], _ => rfl
  | [_], _ => rfl
  | c1 :: c2 :: rest, h => by
    rw [collapse_cons2]
    have hr : ¬(c1 = ' ' ∧ c2 = ' ') := (List.chain'_cons.1 h).1
    have hb : (c1 = ' ' && c2 = ' ') = false := by
      rcases Decidable.em (c1 = ' ') with h1 | h1
      · rcases Decidable.em (c2 = ' ') with h2 | h2
        · exact absurd ⟨h1, h2⟩ hr
        · simp [h2]
      · simp [h1]
    rw [hb]
    simp only [Bool.false_eq_true, if_false]
    rw [collapse_fix (List.chain'_cons.1 h).2]

theorem dropWhile_head_not {p : Char → Bool} :
    ∀ {l : List Char} {a : Char}, (l.dropWhile p).head? = some a → p a = false := by
  intro l
  induction l with
  | nil => intro a h; cases h
  | cons x l ih =>
    intro a h
    rw [List.dropWhile_cons] at h
    split at h
    · exact ih h
    · rename_i hx
      rcases Option.some_inj.1 h
      exact Bool.eq_false_iff.mpr hx

theorem dropWhile_fix {p : Char → Bool} {l : List Char}
    (h : ∀ a, l.head? = some a → p a = false) : l.dropWhile p = l := by
  cases l with
  | nil => rfl
  | cons x l =>
    rw [List.dropWhile_cons, h x rfl]
    simp

theorem dropWhile_idem {p : Char → Bool} (l : List Char) :
    (l.dropWhile p).dropWhile p = l.dropWhile p :=
  dropWhile_fix (fun _ h => dropWhile_head_not h)

theorem dropWhile_eq_append {p : Char → Bool} :
    ∀ l : List Char, ∃ t, l = t ++ l.dropWhile p := by
  intro l
  induction l with
  | nil => exact ⟨[], rfl⟩
  | cons x l ih =>
    rw [List.dropWhile_cons]
    split
    · rcases ih with ⟨t, ht⟩
      exact ⟨x :: t, by rw [List.cons_append, ← ht]⟩
    · exact ⟨[], rfl⟩

theorem stripSpaces_eq (l : List Char) :
    stripSpaces l = dropTrailingSpaces (l.dropWhile (fun c => c = ' ')) := rfl

theorem dropTrailing_prefix (l : List Char) : ∃ r, l = dropTrailingSpaces l ++ r := by
  rcases dropWhile_eq_append (p := fun c => c = ' ') l.reverse with ⟨t, ht⟩
  refine ⟨t.reverse, ?_⟩
  unfold dropTrailingSpaces
  calc l = l.reverse.reverse := (List.reverse_reverse l).symm
    _ = (t ++ l.reverse.dropWhile (fun c => c = ' ')).reverse := by rw [← ht]
    _ = (l.reverse.dropWhile (fun c => c = ' ')).reverse ++ t.reverse := by
          rw [List.reverse_append]

theorem dropTrailing_idem (l : List Char) :
    dropTrailingSpaces (dropTrailingSpaces l) = dropTrailingSpaces l := by
  unfold dropTrailingSpaces
  rw [List.reverse_reverse, dropWhile_idem]

theorem mem_dropTrailing {c : Char} {l : List Char} (h : c ∈ dropTrailingSpaces l) : c ∈ l := by
  unfold dropTrailingSpaces at h
  rw [List.mem_reverse] at h
  have := (List.dropWhile_sublist (l := l.reverse) (p := fun c => c = ' ')).subset h
  rwa [List.mem_reverse] at this

theorem mem_stripSpaces {c : Char} {l : List Char} (h : c ∈ stripSpaces l) : c ∈ l := by
  rw [stripSpaces_eq] at h
  exact (List.dropWhile_sublist (p := fun c => c = ' ')).subset (mem_dropTrailing h)

theorem stripSpaces_idem (l : List Char) : stripSpaces (stripSpaces l) = stripSpaces l := by
  rw [stripSpaces_eq, stripSpaces_eq]
  have hfix : (dropTrailingSpaces (l.dropWhile (fun c => c = ' '))).dropWhile
      (fun c => c = ' ') = dropTrailingSpaces (l.dropWhile (fun c => c = ' ')) := by
    set y := l.dropWhile (fun c => c = ' ') with hy
    rcases dropTrailing_prefix y with ⟨r, hr⟩
    cases hTy : dropTrailingSpaces y with
    | nil => rfl
    | cons a z =>
      apply dropWhile_fix
      intro b hb
      have hab : a = b := by simpa using hb
      rcases hab
      have hhead : y.head? = some a := by
        rw [hr, hTy]
        rfl
      exact dropWhile_head_not (l := l) (by rw [← hy]; exact hhead)
  rw [hfix, dropTrailing_idem]

theorem chain'_dropWhile {R : Char → Char → Prop} {p : Char → Bool} :
    ∀ {l : List Char}, List.Chain' R l → List.Chain' R (l.dropWhile p) := by
  intro l
  induction l with
  | nil => intro h; exact h
  | cons x l ih =>
    intro h
    rw [List.dropWhile_cons]
    split
    · exact ih h.tail
    · exact h

theorem noAdj_reverse {l : List Char} (h : NoAdjSpaces l) : NoAdjSpaces l.reverse := by
  unfold NoAdjSpaces at *
  rw [List.chain'_reverse]
  exact h.imp (fun a b hab hc => hab ⟨hc.2, hc.1⟩)

theorem noAdj_dropTrailing {l : List Char} (h : NoAdjSpaces l) :
    NoAdjSpaces (dropTrailingSpaces l) :=
  noAdj_reverse (chain'_dropWhile (noAdj_reverse h))

theorem noAdj_stripSpaces {l : List Char} (h : NoAdjSpaces l) :
    NoAdjSpaces (stripSpaces l) := by
  rw [stripSpaces_eq]
  exact noAdj_dropTrailing (chain'_dropWhile h)

theorem filter_fix {α : Type} {p : α → Bool} :
    ∀ {l : List α}, (∀ a ∈ l, p a = true) → l.filter p = l
  | [], _ => rfl
  | x :: l, h => by
    rw [List.filter_cons, h x (List.mem_cons_self x l)]
    simp only [if_true]
    rw [filter_fix (fun y hy => h y (List.mem_cons_of_mem x hy))]

/-- The characters of the intermediate stage `s4` of `slugify` (after word-char
filtering and mapping underscores to spaces). -/
theorem s4_mem (l : List Char) : ∀ c ∈ ((((l.map pyLower).map
      (fun c => if isPunct c then '_' else c)).filter isWordChar).map
      (fun c => if c = '_' then ' ' else c)),
    c = ' ' ∨ (isWordChar c = true ∧ ¬ isUpperAZ c ∧ c ≠ '_' ∧ c ≠ ' ') := by
  intro c hc
  rcases List.mem_map.1 hc with ⟨x, hx, rfl⟩
  rcases List.mem_filter.1 hx with ⟨hx2, hword⟩
  have hnotup : ¬ isUpperAZ x := by
    rcases List.mem_map.1 hx2 with ⟨y, hy, rfl⟩
    by_cases hp : isPunct y = true
    · rw [if_pos hp]
      decide
    · rw [if_neg hp]
      rcases List.mem_map.1 hy with ⟨z, hz, rfl⟩
      exact pyLower_notUpper z
  by_cases hx3 : x = '_'
  · left
    simp [hx3]
  · right
    have hxsp : x ≠ ' ' := by
      intro hc2
      rw [hc2] at hword
      exact absurd hword (by decide)
    rw [if_neg hx3]
    exact ⟨hword, hnotup, hx3, hxsp⟩

/-- Applying `slugify`'s pipeline to an already-slugified string (given as its
normal-form witness `u`) is the identity. -/
theorem slugify_second_pass {u : List Char}
    (hmem : ∀ c ∈ u, c = ' ' ∨ (isWordChar c = true ∧ ¬ isUpperAZ c ∧ c ≠ '_' ∧ c ≠ ' '))
    (hnadj : NoAdjSpaces u) (hstrip : stripSpaces u = u) :
    slugifyChars (u.map (fun c => if c = ' ' then '_' else c)) =
      u.map (fun c => if c = ' ' then '_' else c) := by
  have hout : ∀ c ∈ u.map (fun c => if c = ' ' then '_' else c),
      isWordChar c = true ∧ ¬ isUpperAZ c ∧ isPunct c = false ∧ pyLower c = c := by
    intro c hc
    rcases List.mem_map.1 hc with ⟨x, hx, rfl⟩
    by_cases hxsp : x = ' '
    · rw [if_pos hxsp]
      exact ⟨by decide, by decide, by decide, by decide⟩
    · rcases hmem x hx with h | h
      · exact absurd h hxsp
      · rw [if_neg hxsp]
        have hpun : isPunct x = false := by
          cases hq : isPunct x
        -- a word character is never one of the punctuation characters
          · rfl
          · rw [punct_not_word hq] at h
            exact absurd h.1 (by simp)
        exact ⟨h.1, h.2.1, hpun, pyLower_fix h.2.1⟩
  show (stripSpaces (collapseSpaces (((((u.map (fun c => if c = ' ' then '_' else c)).map
      pyLower).map (fun c => if isPunct c then '_' else c)).filter isWordChar).map
      (fun c => if c = '_' then ' ' else c)))).map (fun c => if c = ' ' then '_' else c) =
    u.map (fun c => if c = ' ' then '_' else c)
  have e1 : (u.map (fun c => if c = ' ' then '_' else c)).map pyLower =
      u.map (fun c => if c = ' ' then '_' else c) :=
    map_fix (fun c hc => (hout c hc).2.2.2)
  rw [e1]
  have e2 : (u.map (fun c => if c = ' ' then '_' else c)).map
      (fun c => if isPunct c then '_' else c) = u.map (fun c => if c = ' ' then '_' else c) :=
    map_fix (fun c hc => by simp [(hout c hc).2.2.1])
  rw [e2]
  have e3 : (u.map (fun c => if c = ' ' then '_' else c)).filter isWordChar =
      u.map (fun c => if c = ' ' then '_' else c) :=
    filter_fix (fun c hc => (hout c hc).1)
  rw [e3]
  have e4 : (u.map (fun c => if c = ' ' then '_' else c)).map
      (fun c => if c = '_' then ' ' else c) = u := by
    rw [List.map_map]
    apply map_fix
    intro x hx
    by_cases hxsp : x = ' '
    · simp [hxsp]
    · rcases hmem x hx with h | h
      · exact absurd h hxsp
      · simp [Function.comp, hxsp, h.2.2.1]
  rw [e4, collapse_fix hnadj, hstrip]

theorem slugifyChars_idem (l : List Char) : slugifyChars (slugifyChars l) = slugifyChars l := by
  have hrepr : slugifyChars l = (stripSpaces (collapseSpaces ((((l.map pyLower).map
      (fun c => if isPunct c then '_' else c)).filter isWordChar).map
      (fun c => if c = '_' then ' ' else c)))).map (fun c => if c = ' ' then '_' else c) := rfl
  rw [hrepr]
  exact slugify_second_pass
    (fun c hc => s4_mem l c (mem_collapse (mem_stripSpaces hc)))
    (noAdj_stripSpaces (noAdj_collapse _))
    (stripSpaces_idem _)

/-! ### Claim theorems: concrete scenarios and structural invariants -/

/-- Claim C10: `slugify` is idempotent — for every string `s`,
`slugify (slugify s) = slugify s`, so every slugified name is a fixed point
of `slugify`. -/
theorem slugify_idempotent (s : String) : slugify (slugify s) = slugify s :=
  congrArg String.mk (slugifyChars_idem s.data)

/-- Claim C8: every `DotArrow` produced with `bidirectional = true` has
`src ≤ dst` lexicographically, regardless of the order in which the two
endpoint names were supplied to `DotArrow.make`. -/
theorem dotarrow_bidirectional_src_le_dst (src dst : String) (label : Option String) :
    (DotArrow.make src dst label true).src ≤ (DotArrow.make src dst label true).dst := by
  unfold DotArrow.make
  by_cases h : strLeb src dst = true
  · rw [if_pos rfl, if_pos h]
    exact strLe_iff_le.1 h
  · rw [if_pos rfl, if_neg h]
    rcases strLe_total src dst with h1 | h1
    · exact absurd h1 h
    · exact strLe_iff_le.1 h1

/-- Claim C2: for `Widget(ref="1", lozenge="1", part="1")` and
`Lozenge(ref="1", widget="1")` with identity attribute `ref`, inference
produces exactly the five guessed arrows `lozenge_1→widget_1` on keys `ref`
and `widget` and `widget_1→lozenge_1` on keys `lozenge`, `part` and `ref`,
and combination produces the single bidirectional `DotArrow` labelled
`lozenge<br/>part<br/>ref<br/>widget`. -/
theorem guessed_arrows_and_combine_scenario1 :
    List.Perm
      ((make_guessed_arrows_from_attr_string_values scenario1_config
        [widget1, lozenge1]).toOption.getD [])
      [⟨"lozenge_1", "widget_1", "ref", some "1", true, LozengeT, WidgetT⟩,
       ⟨"lozenge_1", "widget_1", "widget", some "1", true, LozengeT, WidgetT⟩,
       ⟨"widget_1", "lozenge_1", "lozenge", some "1", true, WidgetT, LozengeT⟩,
       ⟨"widget_1", "lozenge_1", "part", some "1", true, WidgetT, LozengeT⟩,
       ⟨"widget_1", "lozenge_1", "ref", some "1", true, WidgetT, LozengeT⟩]
    ∧ combine_arrows (make_rules scenario1_config)
        ((make_arrows scenario1_config [widget1, lozenge1]).toOption.getD []) =
      Except.ok [⟨"lozenge_1", "widget_1", some "lozenge<br/>part<br/>ref<br/>widget", true⟩] := by
  constructor
  · decide
  · decide

/-- Claim C9: for `Parent(reference="ref", children=[Child("child1"),
Child("child2")])` with `attrs_with_child_refs = {Parent: ["children"]}` and
no matching attribute values, the diagram output is exactly three node lines
plus the two directed (non-bidirectional) edges `parent_ref→child_child1`
labelled `children_0` and `parent_ref→child_child2` labelled `children_1`. -/
theorem diagram_scenario2 :
    diagram scenario2_config [parentRef, child1, child2] =
      Except.ok ["child_child1", "child_child2", "parent_ref",
        "parent_ref->child_child1 [ label= <children_0> ]",
        "parent_ref->child_child2 [ label= <children_1> ]"] := by
  decide

/-- Claim C1, counterexample: with two entities sharing the entity name
`A_1`, swapping them changes which one's attribute list survives in
`attrs_by_entity_name`, and the two diagram outputs differ (edge label `ref`
versus `ref<br/>x`).  So `diagram` output is not invariant under permutation
of the input entity list. -/
theorem diagram_not_permutation_invariant :
    List.Perm [permCexE1, permCexE2, permCexF] [permCexE2, permCexE1, permCexF]
    ∧ diagram permCexConfig [permCexE1, permCexE2, permCexF] =
        Except.ok ["a_1", "b_v", "a_1->b_v [ label= <ref> dir=\"both\" ]"]
    ∧ diagram permCexConfig [permCexE2, permCexE1, permCexF] =
        Except.ok ["a_1", "b_v", "a_1->b_v [ label= <ref<br/>x> dir=\"both\" ]"]
    ∧ (["a_1", "b_v", "a_1->b_v [ label= <ref> dir=\"both\" ]"] : List String) ≠
        ["a_1", "b_v", "a_1->b_v [ label= <ref<br/>x> dir=\"both\" ]"] := by
  refine ⟨List.Perm.swap permCexE2 permCexE1 [permCexF], ?_, ?_, ?_⟩
  · decide
  · decide
  · decide

/-- Claim C4, counterexample: with `synonymous_attrs = {T: ["r", "a"]}` and an
entity with attributes `a="1"`, `r="2"` (iterated in sorted order `a`, `r`),
extraction retains the pair with key `a`, not the representative `r`. -/
theorem synonym_filter_representative_counterexample :
    get_attrs synCexAttrs synCexEntity = [("a", "1")]
    ∧ "a" ∈ ["r", "a"] ∧ "a" ≠ "r" := by
  refine ⟨?_, ?_, ?_⟩
  · decide
  · decide
  · decide

/-- Claim C5, counterexample: listing the same widget twice yields one node
line, not two, because `render_to_dot` deduplicates node names through a set. -/
theorem node_lines_count_counterexample :
    diagram dupConfig [dupWidget, dupWidget] = Except.ok ["widget_1"]
    ∧ (["widget_1"] : List String).length ≠ ([dupWidget, dupWidget] : List Entity).length := by
  constructor
  · decide
  · decide

/-- Claim C6, counterexample: the distinct entity names `A_x` and `a_x`
slugify to the same token `a_x`, so inference produces a guessed arrow whose
`src_name` equals its `dst_name`. -/
theorem guessed_self_loop_slug_collision :
    (⟨"a_x", "a_x", "m", some "v", true, slugCexA, slugCexa⟩ : Arrow) ∈
      ((make_guessed_arrows_from_attr_string_values slugCexConfig
        [slugCexE1, slugCexE2]).toOption.getD [])
    ∧ (⟨"a_x", "a_x", "m", some "v", true, slugCexA, slugCexa⟩ : Arrow).src_name =
        (⟨"a_x", "a_x", "m", some "v", true, slugCexA, slugCexa⟩ : Arrow).dst_name := by
  constructor
  · decide
  · rfl

/-! ### Generic fold lemmas -/

theorem mem_foldl_append {α β : Type} (g : β → List α) :
    ∀ (l : List β) (init : List α) (a : α),
    (a ∈ l.foldl (fun acc b => acc ++ g b) init ↔ a ∈ init ∨ ∃ b ∈ l, a ∈ g b) := by
  intro l
  induction l with
  | nil => simp
  | cons b l ih =>
    intro init a
    rw [List.foldl_cons, ih]
    rw [List.mem_append]
    constructor
    · rintro ((h | h) | ⟨b', hb', h⟩)
      · exact Or.inl h
      · exact Or.inr ⟨b, List.mem_cons_self b l, h⟩
      · exact Or.inr ⟨b', List.mem_cons_of_mem b hb', h⟩
    · rintro (h | ⟨b', hb', h⟩)
      · exact Or.inl (Or.inl h)
      · rcases List.mem_cons.1 hb' with rfl | hb'
        · exact Or.inl (Or.inr h)
        · exact Or.inr ⟨b', hb', h⟩

theorem foldlM_except_invariant {β σ : Type} (f : σ → β → Except Err σ) (P : σ → Prop)
    (hstep : ∀ s b s', f s b = .ok s' → P s → P s') :
    ∀ (l : List β) (s : σ) (out : σ), l.foldlM f s = .ok out → P s → P out := by
  intro l
  induction l with
  | nil =>
    intro s out h hp
    rcases Except.ok.inj h
    exact hp
  | cons b l ih =>
    intro s out h hp
    rw [List.foldlM_cons] at h
    cases hf : f s b with
    | error e =>
      rw [hf] at h
      exact Except.noConfusion h
    | ok s' =>
      rw [hf] at h
      exact ih s' out h (hstep s b s' hf hp)

theorem foldlM_except_error_of_mem {β σ : Type} (f : σ → β → Except Err σ) (bad : β)
    (hbad : ∀ s, ∃ err, f s bad = .error err) :
    ∀ (l : List β) (s : σ), bad ∈ l → ∃ err, l.foldlM f s = .error err := by
  intro l
  induction l with
  | nil =>
    intro s h
    exact absurd h (List.not_mem_nil bad)
  | cons b l ih =>
    intro s h
    rw [List.foldlM_cons]
    rcases List.mem_cons.1 h with rfl | hmem
    · rcases hbad s with ⟨err, herr⟩
      rw [herr]
      exact ⟨err, rfl⟩
    · cases hf : f s b with
      | error e => exact ⟨e, rfl⟩
      | ok s' => exact ih s' hmem

/-! ### Claim C7: the Arrow invariant -/

theorem guessArrow_shape (key : PairKey) (kv : String × String) :
    (guessArrowOfKV key kv).guessed = true ∧ (guessArrowOfKV key kv).value = some kv.2 :=
  ⟨rfl, rfl⟩

theorem arrowsOfGuessPairs_shape (pairs : List (PairKey × List (String × String))) :
    ∀ a ∈ arrowsOfGuessPairs pairs, a.guessed = true ∧ (a.value).isSome = true := by
  intro a ha
  rw [arrowsOfGuessPairs, mem_foldl_append] at ha
  rcases ha with h | ⟨p, _, h⟩
  · exact absurd h (List.not_mem_nil a)
  · rcases List.mem_map.1 h with ⟨kv, _, rfl⟩
    exact ⟨rfl, rfl⟩

theorem make_guessed_shape {config : Configuration} {entities : List Entity} {arrows : List Arrow}
    (h : make_guessed_arrows_from_attr_string_values config entities = .ok arrows) :
    ∀ a ∈ arrows, a.guessed = true ∧ (a.value).isSome = true := by
  rw [make_guessed_arrows_from_attr_string_values] at h
  cases hidx : indexEntities config entities with
  | error e =>
    rw [hidx] at h
    exact Except.noConfusion h
  | ok st =>
    rw [hidx] at h
    rcases Except.ok.inj h
    exact arrowsOfGuessPairs_shape _

theorem refArrowForChild_shape {id_attrs : List (PyType × String)} {e : Entity}
    {child : String × Value} {a : Arrow} (h : refArrowForChild id_attrs e child = .ok a) :
    a.guessed = false ∧ a.value = none := by
  rw [refArrowForChild] at h
  split at h
  · exact Except.noConfusion h
  · split at h
    · split at h
      · exact Except.noConfusion h
      · rcases Except.ok.inj h
        exact ⟨rfl, rfl⟩
    · exact Except.noConfusion h

theorem entityRefArrows_shape {config : Configuration} {e : Entity} {ra : List Arrow}
    (h : entityRefArrows config e = .ok ra) :
    ∀ a ∈ ra, a.guessed = false ∧ a.value = none := by
  rw [entityRefArrows] at h
  split at h
  · exact Except.noConfusion h
  · rename_i children _
    refine foldlM_except_invariant _ (fun s => ∀ a ∈ s, a.guessed = false ∧ a.value = none)
      ?_ children [] ra h (by simp)
    intro s child s' hstep hP
    split at hstep
    · exact Except.noConfusion hstep
    · rename_i a hc
      rcases Except.ok.inj hstep
      intro b hb
      rcases List.mem_append.1 hb with h1 | h1
      · exact hP b h1
      · rcases List.mem_singleton.1 h1 with rfl
        exact refArrowForChild_shape hc

theorem make_refs_shape {config : Configuration} {entities : List Entity} {arrows : List Arrow}
    (h : make_arrows_from_python_refs config entities = .ok arrows) :
    ∀ a ∈ arrows, a.guessed = false ∧ a.value = none := by
  rw [make_arrows_from_python_refs] at h
  refine foldlM_except_invariant _ (fun s => ∀ a ∈ s, a.guessed = false ∧ a.value = none)
    ?_ entities [] arrows h (by simp)
  intro s e s' hstep hP
  split at hstep
  · exact Except.noConfusion hstep
  · rename_i ra heq
    rcases Except.ok.inj hstep
    intro b hb
    rcases List.mem_append.1 hb with h1 | h1
    · exact hP b h1
    · exact entityRefArrows_shape heq b h1

/-- Claim C7: every `Arrow` produced by `make_arrows` satisfies
`guessed = (value is not None)`, so the assertion in `Arrow.__post_init__`
never fires on arrows built by the inference engine. -/
theorem arrow_guessed_iff_value_present {config : Configuration} {entities : List Entity}
    {arrows : List Arrow} (h : make_arrows config entities = .ok arrows) :
    ∀ a ∈ arrows, a.guessed = (a.value).isSome := by
  rw [make_arrows] at h
  cases hg : make_guessed_arrows_from_attr_string_values config entities with
  | error e =>
    rw [hg] at h
    exact Except.noConfusion h
  | ok gs =>
    rw [hg] at h
    cases hr : make_arrows_from_python_refs config entities with
    | error e =>
      rw [hr] at h
      exact Except.noConfusion h
    | ok rs =>
      rw [hr] at h
      rcases Except.ok.inj h
      intro a ha
      rcases List.mem_append.1 ha with h1 | h1
      · rcases make_guessed_shape hg a h1 with ⟨h2, h3⟩
        rw [h2, h3]
      · rcases make_refs_shape hr a h1 with ⟨h2, h3⟩
        rw [h2, h3]
        rfl

/-- Claim C7, witness at Scenario 1's inputs and its first guessed arrow. -/
theorem arrow_guessed_iff_value_present_witness :
    (⟨"widget_1", "lozenge_1", "lozenge", some "1", true, WidgetT, LozengeT⟩ : Arrow).guessed =
      ((⟨"widget_1", "lozenge_1", "lozenge", some "1", true, WidgetT,
        LozengeT⟩ : Arrow).value).isSome :=
  @arrow_guessed_iff_value_present scenario1_config [widget1, lozenge1]
    [⟨"widget_1", "lozenge_1", "lozenge", some "1", true, WidgetT, LozengeT⟩,
     ⟨"widget_1", "lozenge_1", "part", some "1", true, WidgetT, LozengeT⟩,
     ⟨"widget_1", "lozenge_1", "ref", some "1", true, WidgetT, LozengeT⟩,
     ⟨"lozenge_1", "widget_1", "ref", some "1", true, LozengeT, WidgetT⟩,
     ⟨"lozenge_1", "widget_1", "widget", some "1", true, LozengeT, WidgetT⟩]
    (by decide)
    ⟨"widget_1", "lozenge_1", "lozenge", some "1", true, WidgetT, LozengeT⟩ (by decide)

/-! ### Claim C3: missing identity mapping -/

theorem indexEntity_error {config : Configuration} {e : Entity} {err0 : Err}
    (h : entity_name config.id_attrs e = .error err0) (st : GuessIndex) :
    indexEntity config st e = .error err0 := by
  rw [indexEntity, h]
  rfl

theorem diagram_error_of_mem {config : Configuration} {e : Entity} {err0 : Err}
    (herr : entity_name config.id_attrs e = .error err0) {entities : List Entity}
    (hmem : e ∈ entities) : ∃ err, diagram config entities = .error err := by
  rcases foldlM_except_error_of_mem (indexEntity config) e
      (fun st => ⟨err0, indexEntity_error herr st⟩) entities ⟨[], [], []⟩ hmem with ⟨err, hidx⟩
  refine ⟨err, ?_⟩
  rw [diagram, make_arrows, make_guessed_arrows_from_attr_string_values, indexEntities, hidx]
  rfl

/-- Claim C3: for every entity whose type has no entry in `config.id_attrs`,
`entity_name` fails with `ConfigurationError`; hence any diagram build whose
entity list contains the entity fails, and resolving a declared child
reference to the entity fails with `ConfigurationError`. -/
theorem entity_name_missing_id_attr (config : Configuration) (e : Entity)
    (h : dlookup e.type_ config.id_attrs = none) :
    entity_name config.id_attrs e = .error Err.configurationError
    ∧ (∀ entities, e ∈ entities → ∃ err, diagram config entities = .error err)
    ∧ (∀ p ckey pn, entity_name config.id_attrs p = .ok pn →
        refArrowForChild config.id_attrs p (ckey, .entity e) =
          .error Err.configurationError) := by
  have h1 : entity_name config.id_attrs e = .error Err.configurationError := by
    rw [entity_name, h]
  refine ⟨h1, ?_, ?_⟩
  · intro entities hmem
    exact diagram_error_of_mem h1 hmem
  · intro p ckey pn hp
    rw [refArrowForChild, hp]
    show (match entity_name config.id_attrs e with
      | .error err => (.error err : Except Err Arrow)
      | .ok child_name =>
        .ok { src_name := slugify pn
              dst_name := slugify child_name
              key := ckey
              value := none
              guessed := false
              src_type := p.type_
              dst_type := e.type_ }) = .error Err.configurationError
    rw [h1]

/-- Claim C3, witness: `missingEntity`'s type has no identity mapping in
`dupConfig`. -/
theorem entity_name_missing_id_attr_witness :
    entity_name dupConfig.id_attrs missingEntity = .error Err.configurationError
    ∧ (∀ entities, missingEntity ∈ entities → ∃ err, diagram dupConfig entities = .error err)
    ∧ (∀ p ckey pn, entity_name dupConfig.id_attrs p = .ok pn →
        refArrowForChild dupConfig.id_attrs p (ckey, .entity missingEntity) =
          .error Err.configurationError) :=
  entity_name_missing_id_attr dupConfig missingEntity (by decide)

/-! ### Claim C4: synonym filtering -/

theorem filterSynGo_eq_spec {sa : List (PyType × List String)} {e : Entity} {r : String}
    {rest : List String} (h : dlookup e.type_ sa = some (r :: rest)) :
    ∀ (attrs : List (String × String)) (seen : List String),
    filterSynGo sa e seen attrs = keepFirstSynonymSpec (r :: rest) attrs (decide (r ∈ seen)) := by
  intro attrs
  induction attrs with
  | nil => intro seen; rfl
  | cons kv rest' ih =>
    intro seen
    rw [filterSynGo, keepFirstSynonymSpec]
    simp only [h, Option.getD_some]
    by_cases hsyn : kv.1 ∈ r :: rest
    · rw [if_pos hsyn, if_pos hsyn]
      have hrep : (r :: rest).headD "" = r := rfl
      rw [hrep]
      by_cases hseen : r ∈ seen
      · rw [if_pos hseen, if_pos (by simpa using hseen), ih seen]
        simp [hseen]
      · rw [if_neg hseen, if_neg (by simpa using hseen), ih (sadd seen r)]
        have : r ∈ sadd seen r := mem_sadd.2 (Or.inr rfl)
        simp [this]
    · rw [if_neg hsyn, if_neg hsyn, ih seen]

theorem keepFirst_countP_true (syns : List String) :
    ∀ attrs : List (String × String),
    (keepFirstSynonymSpec syns attrs true).countP (fun kv => decide (kv.1 ∈ syns)) = 0 := by
  intro attrs
  induction attrs with
  | nil => rfl
  | cons kv rest ih =>
    rw [keepFirstSynonymSpec]
    by_cases hsyn : kv.1 ∈ syns
    · rw [if_pos hsyn, if_pos rfl]
      exact ih
    · rw [if_neg hsyn]
      rw [List.countP_cons]
      simp [hsyn, ih]

theorem keepFirst_countP_false (syns : List String) :
    ∀ attrs : List (String × String),
    (keepFirstSynonymSpec syns attrs false).countP (fun kv => decide (kv.1 ∈ syns)) ≤ 1 := by
  intro attrs
  induction attrs with
  | nil => exact Nat.zero_le 1
  | cons kv rest ih =>
    rw [keepFirstSynonymSpec]
    by_cases hsyn : kv.1 ∈ syns
    · rw [if_pos hsyn, if_neg (by decide : ¬ false = true)]
      rw [List.countP_cons]
      simp [hsyn, keepFirst_countP_true]
    · rw [if_neg hsyn]
      rw [List.countP_cons]
      simp [hsyn, ih]

/-- Claim C4 (amended): for an entity whose type maps to the synonym list
`r :: rest`, attribute filtering keeps exactly the first pair (in iteration
order) whose key is in the list — with its own key, which need not be the
representative `r` — and drops every later synonym pair; in particular at
most one synonym-keyed pair is retained. -/
theorem synonym_filter_keeps_first_encountered (sa : List (PyType × List String))
    (e : Entity) (attrs : List (String × String)) (r : String) (rest : List String)
    (h : dlookup e.type_ sa = some (r :: rest)) :
    filter_out_synonymous_attributes sa e attrs = keepFirstSynonymSpec (r :: rest) attrs false
    ∧ (filter_out_synonymous_attributes sa e attrs).countP
        (fun kv => decide (kv.1 ∈ r :: rest)) ≤ 1 := by
  have h1 : filter_out_synonymous_attributes sa e attrs =
      keepFirstSynonymSpec (r :: rest) attrs false := by
    rw [filter_out_synonymous_attributes, filterSynGo_eq_spec h attrs []]
    rfl
  exact ⟨h1, h1 ▸ keepFirst_countP_false (r :: rest) attrs⟩

/-- Claim C4, witness at the counterexample inputs. -/
theorem synonym_filter_keeps_first_encountered_witness :
    filter_out_synonymous_attributes synCexAttrs synCexEntity [("a", "1"), ("r", "2")] =
      keepFirstSynonymSpec ["r", "a"] [("a", "1"), ("r", "2")] false
    ∧ (filter_out_synonymous_attributes synCexAttrs synCexEntity
        [("a", "1"), ("r", "2")]).countP (fun kv => decide (kv.1 ∈ ["r", "a"])) ≤ 1 :=
  synonym_filter_keeps_first_encountered synCexAttrs synCexEntity [("a", "1"), ("r", "2")]
    "r" ["a"] (by decide)

/-! ### Success analysis of the monadic folds -/

theorem foldlM_except_all_ok {β σ : Type} (f : σ → β → Except Err σ) :
    ∀ (l : List β) (s out : σ), l.foldlM f s = .ok out → ∀ b ∈ l, ∃ s1 s2, f s1 b = .ok s2 := by
  intro l
  induction l with
  | nil =>
    intro s out _ b hb
    exact absurd hb (List.not_mem_nil b)
  | cons c l ih =>
    intro s out h b hb
    rw [List.foldlM_cons] at h
    cases hf : f s c with
    | error e =>
      rw [hf] at h
      exact Except.noConfusion h
    | ok s' =>
      rw [hf] at h
      rcases List.mem_cons.1 hb with rfl | hb'
      · exact ⟨s, s', hf⟩
      · exact ih s' out h b hb'

theorem foldlM_except_ok_of_steps {β σ : Type} (f : σ → β → Except Err σ) :
    ∀ (l : List β), (∀ s b, b ∈ l → ∃ s', f s b = .ok s') →
    ∀ s, ∃ out, l.foldlM f s = .ok out := by
  intro l
  induction l with
  | nil =>
    intro _ s
    exact ⟨s, rfl⟩
  | cons c l ih =>
    intro h s
    rcases h s c (List.mem_cons_self c l) with ⟨s', hs'⟩
    rw [List.foldlM_cons, hs']
    exact ih (fun s2 b hb => h s2 b (List.mem_cons_of_mem c hb)) s'

/-! ### Reference arrows: characterization -/

theorem refs_foldlM_eq {config : Configuration} :
    ∀ (l : List Entity) (acc : List Arrow),
    (∀ e ∈ l, ∃ ra, entityRefArrows config e = .ok ra) →
    (l.foldlM (fun arrows entity =>
      match entityRefArrows config entity with
      | .error err => (.error err : Except Err (List Arrow))
      | .ok ra => .ok (arrows ++ ra)) acc) =
      .ok (acc ++ (l.map (entityRefArrowsD config)).flatten) := by
  intro l
  induction l with
  | nil =>
    intro acc _
    simp
    rfl
  | cons e l ih =>
    intro acc hok
    rcases hok e (List.mem_cons_self e l) with ⟨ra, hra⟩
    have hD : entityRefArrowsD config e = ra := by
      rw [entityRefArrowsD, hra]
      rfl
    rw [List.foldlM_cons]
    have hstep : (match entityRefArrows config e with
      | .error err => (.error err : Except Err (List Arrow))
      | .ok ra => .ok (acc ++ ra)) = Except.ok (acc ++ ra) := by rw [hra]
    rw [hstep]
    have htail := fun e' he' => hok e' (List.mem_cons_of_mem e he')
    exact (ih (acc ++ ra) htail).trans
      (by rw [List.map_cons, List.flatten_cons, hD, List.append_assoc])

theorem make_refs_eq_concat {config : Configuration} {l : List Entity}
    (h : ∀ e ∈ l, ∃ ra, entityRefArrows config e = .ok ra) :
    make_arrows_from_python_refs config l =
      .ok ((l.map (entityRefArrowsD config)).flatten) := by
  rw [make_arrows_from_python_refs]
  simpa using refs_foldlM_eq l [] h

theorem make_refs_ok_elements {config : Configuration} {l : List Entity} {arrows : List Arrow}
    (h : make_arrows_from_python_refs config l = .ok arrows) :
    ∀ e ∈ l, ∃ ra, entityRefArrows config e = .ok ra := by
  intro e he
  rw [make_arrows_from_python_refs] at h
  rcases foldlM_except_all_ok _ l _ arrows h e he with ⟨s1, s2, hstep⟩
  cases hre : entityRefArrows config e with
  | error err =>
    rw [hre] at hstep
    exact Except.noConfusion hstep
  | ok ra => exact ⟨ra, rfl⟩

theorem mem_refs_join {config : Configuration} {l : List Entity} {a : Arrow} :
    a ∈ (l.map (entityRefArrowsD config)).flatten ↔
      ∃ e ∈ l, a ∈ entityRefArrowsD config e := by
  rw [List.mem_flatten]
  constructor
  · rintro ⟨la, hla, ha⟩
    rcases List.mem_map.1 hla with ⟨e, he, rfl⟩
    exact ⟨e, he, ha⟩
  · rintro ⟨e, he, ha⟩
    exact ⟨entityRefArrowsD config e, List.mem_map_of_mem _ he, ha⟩

/-! ### Guessed arrows: the index state -/

theorem indexEntity_ok {config : Configuration} {st : GuessIndex} {e : Entity} {n : String}
    (h : entity_name config.id_attrs e = .ok n) :
    indexEntity config st e = .ok
      ⟨dset st.attrs_by_entity_name n (get_attrs config.synonymous_attrs e),
       dset st.types_by_entity_name n e.type_,
       addAttrsToByValue n (get_attrs config.synonymous_attrs e) st.by_value⟩ := by
  rw [indexEntity, h]
  rfl

theorem indexEntities_names_ok {config : Configuration} {l : List Entity} {st : GuessIndex}
    (h : indexEntities config l = .ok st) :
    ∀ e ∈ l, entity_name config.id_attrs e = .ok (entityNameD config e) := by
  intro e he
  rw [indexEntities] at h
  rcases foldlM_except_all_ok (indexEntity config) l _ st h e he with ⟨s1, s2, hstep⟩
  cases hn : entity_name config.id_attrs e with
  | error err =>
    rw [indexEntity_error hn s1] at hstep
    exact Except.noConfusion hstep
  | ok n =>
    rw [entityNameD, hn]
    rfl

theorem indexEntities_ok_of_names {config : Configuration} {l : List Entity}
    (h : ∀ e ∈ l, entity_name config.id_attrs e = .ok (entityNameD config e)) :
    ∃ st, indexEntities config l = .ok st := by
  rw [indexEntities]
  refine foldlM_except_ok_of_steps _ l ?_ _
  intro s e he
  exact ⟨_, indexEntity_ok (h e he)⟩

theorem mem_addAttrsToByValue {name : String} :
    ∀ (attrs : List (String × String)) (bv : List (String × List String)) (v n : String),
    (n ∈ (dlookup v (addAttrsToByValue name attrs bv)).getD [] ↔
      n ∈ (dlookup v bv).getD [] ∨ (n = name ∧ ∃ k, (k, v) ∈ attrs)) := by
  intro attrs
  induction attrs with
  | nil =>
    intro bv v n
    simp [addAttrsToByValue]
  | cons kv attrs ih =>
    intro bv v n
    have hunfold : addAttrsToByValue name (kv :: attrs) bv =
        addAttrsToByValue name attrs (dupd bv kv.2 [] (fun s => sadd s name)) := rfl
    rw [hunfold, ih, dlookup_dupd]
    by_cases hv : v = kv.2
    · subst hv
      rw [if_pos rfl]
      simp only [Option.getD_some]
      rw [mem_sadd]
      constructor
      · rintro ((h | rfl) | ⟨rfl, k, hk⟩)
        · exact Or.inl h
        · exact Or.inr ⟨rfl, kv.1, List.mem_cons_self kv attrs⟩
        · exact Or.inr ⟨rfl, k, List.mem_cons_of_mem kv hk⟩
      · rintro (h | ⟨rfl, k, hk⟩)
        · exact Or.inl (Or.inl h)
        · rcases List.mem_cons.1 hk with heq | hk'
          · exact Or.inl (Or.inr rfl)
          · exact Or.inr ⟨rfl, k, hk'⟩
    · rw [if_neg hv]
      constructor
      · rintro (h | ⟨rfl, k, hk⟩)
        · exact Or.inl h
        · exact Or.inr ⟨rfl, k, List.mem_cons_of_mem kv hk⟩
      · rintro (h | ⟨rfl, k, hk⟩)
        · exact Or.inl h
        · rcases List.mem_cons.1 hk with heq | hk'
          · exact absurd (congrArg Prod.snd heq) hv
          · exact Or.inr ⟨rfl, k, hk'⟩

theorem indexEntities_state {config : Configuration} :
    ∀ (l : List Entity) (s0 st : GuessIndex),
    l.foldlM (indexEntity config) s0 = .ok st →
    (∀ e ∈ l, entity_name config.id_attrs e = .ok (entityNameD config e)) →
    (l.map (entityNameD config)).Nodup →
    (∀ e ∈ l, dlookup (entityNameD config e) s0.attrs_by_entity_name = none) →
    (∀ e ∈ l, dlookup (entityNameD config e) s0.types_by_entity_name = none) →
    st.attrs_by_entity_name = s0.attrs_by_entity_name ++
        l.map (fun e => (entityNameD config e, get_attrs config.synonymous_attrs e))
    ∧ st.types_by_entity_name = s0.types_by_entity_name ++
        l.map (fun e => (entityNameD config e, e.type_))
    ∧ ∀ v n, (n ∈ (dlookup v st.by_value).getD [] ↔
        n ∈ (dlookup v s0.by_value).getD [] ∨
        ∃ e ∈ l, n = entityNameD config e ∧
          ∃ k, (k, v) ∈ get_attrs config.synonymous_attrs e) := by
  intro l
  induction l with
  | nil =>
    intro s0 st h _ _ _ _
    rcases Except.ok.inj h
    simp
  | cons e l ih =>
    intro s0 st h hnames hnodup hfa hft
    rw [List.foldlM_cons] at h
    have hne := hnames e (List.mem_cons_self e l)
    rw [indexEntity_ok hne] at h
    have h' : l.foldlM (indexEntity config)
        ⟨dset s0.attrs_by_entity_name (entityNameD config e)
            (get_attrs config.synonymous_attrs e),
         dset s0.types_by_entity_name (entityNameD config e) e.type_,
         addAttrsToByValue (entityNameD config e) (get_attrs config.synonymous_attrs e)
            s0.by_value⟩ = .ok st := h
    have hnm_not : (entityNameD config e) ∉ l.map (entityNameD config) :=
      (List.nodup_cons.1 hnodup).1
    have htail_ne : ∀ e' ∈ l, entityNameD config e' ≠ entityNameD config e := by
      intro e' he' hc
      exact hnm_not (hc ▸ List.mem_map_of_mem _ he')
    have hseta : dset s0.attrs_by_entity_name (entityNameD config e)
        (get_attrs config.synonymous_attrs e) =
        s0.attrs_by_entity_name ++
          [(entityNameD config e, get_attrs config.synonymous_attrs e)] :=
      dset_of_absent _ (hfa e (List.mem_cons_self e l))
    have hsett : dset s0.types_by_entity_name (entityNameD config e) e.type_ =
        s0.types_by_entity_name ++ [(entityNameD config e, e.type_)] :=
      dset_of_absent _ (hft e (List.mem_cons_self e l))
    rcases ih _ st h' (fun e' he' => hnames e' (List.mem_cons_of_mem e he'))
        (List.nodup_cons.1 hnodup).2
        (by
          intro e' he'
          have hne2 : ¬ (entityNameD config e = entityNameD config e') :=
            fun hc => htail_ne e' he' hc.symm
          show dlookup (entityNameD config e')
            (dset s0.attrs_by_entity_name (entityNameD config e)
              (get_attrs config.synonymous_attrs e)) = none
          rw [hseta, dlookup_append, hfa e' (List.mem_cons_of_mem e he')]
          simp [dlookup, hne2])
        (by
          intro e' he'
          have hne2 : ¬ (entityNameD config e = entityNameD config e') :=
            fun hc => htail_ne e' he' hc.symm
          show dlookup (entityNameD config e')
            (dset s0.types_by_entity_name (entityNameD config e) e.type_) = none
          rw [hsett, dlookup_append, hft e' (List.mem_cons_of_mem e he')]
          simp [dlookup, hne2])
      with ⟨iha, iht, ihv⟩
    refine ⟨?_, ?_, ?_⟩
    · rw [iha]
      show (dset s0.attrs_by_entity_name (entityNameD config e)
          (get_attrs config.synonymous_attrs e)) ++ _ = _
      rw [hseta, List.append_assoc, List.map_cons]
      rfl
    · rw [iht]
      show (dset s0.types_by_entity_name (entityNameD config e) e.type_) ++ _ = _
      rw [hsett, List.append_assoc, List.map_cons]
      rfl
    · intro v n
      rw [ihv v n]
      show (n ∈ (dlookup v (addAttrsToByValue (entityNameD config e)
          (get_attrs config.synonymous_attrs e) s0.by_value)).getD [] ∨ _) ↔ _
      rw [mem_addAttrsToByValue]
      constructor
      · rintro ((h1 | ⟨rfl, k, hk⟩) | ⟨e', he', rfl, k, hk⟩)
        · exact Or.inl h1
        · exact Or.inr ⟨e, List.mem_cons_self e l, rfl, k, hk⟩
        · exact Or.inr ⟨e', List.mem_cons_of_mem e he', rfl, k, hk⟩
      · rintro (h1 | ⟨e', he', rfl, k, hk⟩)
        · exact Or.inl (Or.inl h1)
        · rcases List.mem_cons.1 he' with rfl | he''
          · exact Or.inl (Or.inr ⟨rfl, k, hk⟩)
          · exact Or.inr ⟨e', he'', rfl, k, hk⟩

/-! ### Guessed arrows: membership characterization -/

theorem dlookup_map_pair {β : Type} (f : Entity → String) (g : Entity → β) :
    ∀ {l : List Entity} {n : String} {b : β},
    dlookup n (l.map (fun x => (f x, g x))) = some b → ∃ x ∈ l, f x = n ∧ g x = b := by
  intro l
  induction l with
  | nil =>
    intro n b h
    simp [dlookup] at h
  | cons e l ih =>
    intro n b h
    rw [List.map_cons, dlookup] at h
    split at h
    · rename_i heq
      rcases Option.some_inj.1 h
      exact ⟨e, List.mem_cons_self e l, heq, rfl⟩
    · rcases ih h with ⟨x, hx, hfx, hgx⟩
      exact ⟨x, List.mem_cons_of_mem e hx, hfx, hgx⟩

theorem dlookup_map_pair_of_nodup {β : Type} (f : Entity → String) (g : Entity → β) :
    ∀ {l : List Entity}, (l.map f).Nodup → ∀ {e : Entity}, e ∈ l →
    dlookup (f e) (l.map (fun x => (f x, g x))) = some (g e) := by
  intro l
  induction l with
  | nil =>
    intro _ e he
    exact absurd he (List.not_mem_nil e)
  | cons x l ih =>
    intro hnd e he
    rw [List.map_cons, dlookup]
    rcases List.mem_cons.1 he with rfl | he'
    · rw [if_pos rfl]
    · by_cases hfx : f x = f e
      · exfalso
        exact (List.nodup_cons.1 hnd).1 (hfx ▸ List.mem_map_of_mem f he')
      · rw [if_neg hfx]
        exact ih (List.nodup_cons.1 hnd).2 he'

theorem keys_mem_iff_dlookup {K V : Type} [DecidableEq K] :
    ∀ {d : List (K × V)} {k : K}, k ∈ d.map Prod.fst ↔ (dlookup k d).isSome = true := by
  intro d
  induction d with
  | nil => intro k; simp [dlookup]
  | cons kv d ih =>
    intro k
    rw [List.map_cons, List.mem_cons, dlookup]
    by_cases h : kv.1 = k
    · simp [h]
    · have h2 : ¬ k = kv.1 := fun hc => h hc.symm
      simp [h, h2, ih]

theorem mem_entry_iff_dlookup {K V : Type} [DecidableEq K] :
    ∀ {d : List (K × V)}, (d.map Prod.fst).Nodup →
    ∀ {k : K} {s : V}, ((k, s) ∈ d ↔ dlookup k d = some s) := by
  intro d
  induction d with
  | nil =>
    intro _ k s
    simp [dlookup]
  | cons kv d ih =>
    intro hnd k s
    rw [List.mem_cons, dlookup]
    by_cases h : kv.1 = k
    · rw [if_pos h]
      constructor
      · rintro (rfl | hmem)
        · rfl
        · exfalso
          exact (List.nodup_cons.1 hnd).1 (h ▸ List.mem_map_of_mem Prod.fst hmem)
      · intro hs
        rcases Option.some_inj.1 hs
        left
        rw [← h]
    · rw [if_neg h]
      rw [ih (List.nodup_cons.1 hnd).2]
      constructor
      · rintro (rfl | hmem)
        · exact absurd rfl h
        · exact hmem
      · exact fun hm => Or.inr hm

theorem dupd_keys_eq {K V : Type} [DecidableEq K] (d : List (K × V)) (k : K) (dflt : V)
    (f : V → V) :
    (dupd d k dflt f).map Prod.fst = d.map Prod.fst ∨
      (dupd d k dflt f).map Prod.fst = d.map Prod.fst ++ [k] ∧ k ∉ d.map Prod.fst := by
  unfold dupd
  split
  · left
    rw [List.map_map]
    apply List.map_congr_left
    intro kv _
    by_cases h : kv.1 = k
    · simp [Function.comp, h]
    · simp [Function.comp, h]
  · right
    rename_i hany
    constructor
    · rw [List.map_append]
      rfl
    · intro hk
      rw [keys_mem_iff_dlookup] at hk
      rw [(dlookup_eq_none_iff_any k d).2 (Bool.eq_false_iff.mpr hany)] at hk
      rw [Option.isSome_none] at hk
      exact Bool.noConfusion hk

theorem dupd_keys_nodup {K V : Type} [DecidableEq K] {d : List (K × V)}
    (hnd : (d.map Prod.fst).Nodup) (k : K) (dflt : V) (f : V → V) :
    ((dupd d k dflt f).map Prod.fst).Nodup := by
  rcases dupd_keys_eq d k dflt f with h | ⟨h, hk⟩
  · rw [h]
    exact hnd
  · rw [h]
    simp [List.nodup_append, hnd, hk]

theorem mem_fold_dupd_sadd (st : GuessIndex) (src_type : PyType) (src_name k v : String) :
    ∀ (ds : List String) (acc : List (PairKey × List (String × String)))
      (key4 : PairKey) (x : String × String),
    (x ∈ (dlookup key4 (ds.foldl (fun acc dst_name =>
        dupd acc (src_type, src_name,
          (dlookup dst_name st.types_by_entity_name).getD dummyType, dst_name) []
          (fun s => sadd s (k, v))) acc)).getD [] ↔
      x ∈ (dlookup key4 acc).getD [] ∨
        (x = (k, v) ∧ ∃ dn ∈ ds, key4 = (src_type, src_name,
          (dlookup dn st.types_by_entity_name).getD dummyType, dn))) := by
  intro ds
  induction ds with
  | nil =>
    intro acc key4 x
    simp
  | cons dn ds ih =>
    intro acc key4 x
    rw [List.foldl_cons, ih]
    rw [dlookup_dupd]
    by_cases hk : key4 = (src_type, src_name,
        (dlookup dn st.types_by_entity_name).getD dummyType, dn)
    · subst hk
      rw [if_pos rfl]
      simp only [Option.getD_some]
      rw [mem_sadd]
      constructor
      · rintro ((h | rfl) | ⟨rfl, dn', hdn', hkey⟩)
        · exact Or.inl h
        · exact Or.inr ⟨rfl, dn, List.mem_cons_self dn ds, rfl⟩
        · exact Or.inr ⟨rfl, dn', List.mem_cons_of_mem dn hdn', hkey⟩
      · rintro (h | ⟨rfl, dn', hdn', hkey⟩)
        · exact Or.inl (Or.inl h)
        · exact Or.inl (Or.inr rfl)
    · rw [if_neg hk]
      constructor
      · rintro (h | ⟨rfl, dn', hdn', hkey⟩)
        · exact Or.inl h
        · exact Or.inr ⟨rfl, dn', List.mem_cons_of_mem dn hdn', hkey⟩
      · rintro (h | ⟨rfl, dn', hdn', hkey⟩)
        · exact Or.inl h
        · rcases List.mem_cons.1 hdn' with rfl | hdn''
          · exact absurd hkey hk
          · exact Or.inr ⟨rfl, dn', hdn'', hkey⟩

theorem mem_addDstsForAttr (st : GuessIndex) (src_type : PyType) (src_name k v : String)
    (acc : List (PairKey × List (String × String))) (key4 : PairKey) (x : String × String) :
    x ∈ (dlookup key4 (addDstsForAttr st src_type src_name k v acc)).getD [] ↔
      x ∈ (dlookup key4 acc).getD [] ∨
        (x = (k, v) ∧ ∃ dn, dn ∈ (dlookup v st.by_value).getD [] ∧ dn ≠ src_name ∧
          key4 = (src_type, src_name,
            (dlookup dn st.types_by_entity_name).getD dummyType, dn)) := by
  have hm := mem_fold_dupd_sadd st src_type src_name k v
      (((dlookup v st.by_value).getD []).filter (fun n => n ≠ src_name)) acc key4 x
  constructor
  · intro h
    rcases hm.1 h with h1 | ⟨rfl, dn, hdn, hkey⟩
    · exact Or.inl h1
    · rcases List.mem_filter.1 hdn with ⟨hdn1, hdn2⟩
      exact Or.inr ⟨rfl, dn, hdn1, by simpa using hdn2, hkey⟩
  · intro h
    apply hm.2
    rcases h with h1 | ⟨rfl, dn, hdn1, hdn2, hkey⟩
    · exact Or.inl h1
    · exact Or.inr ⟨rfl, dn, List.mem_filter.2 ⟨hdn1, by simpa using hdn2⟩, hkey⟩

theorem mem_addArrowSources (st : GuessIndex) (src_type : PyType) (src_name : String) :
    ∀ (src_attrs : List (String × String)) (acc : List (PairKey × List (String × String)))
      (key4 : PairKey) (x : String × String),
    (x ∈ (dlookup key4 (addArrowSources st src_type src_name src_attrs acc)).getD [] ↔
      x ∈ (dlookup key4 acc).getD [] ∨
      ∃ kv ∈ src_attrs, x = kv ∧ ∃ dn,
        dn ∈ ((dlookup kv.2 st.by_value).getD []) ∧ dn ≠ src_name ∧
        key4 = (src_type, src_name,
          (dlookup dn st.types_by_entity_name).getD dummyType, dn)) := by
  intro src_attrs
  induction src_attrs with
  | nil =>
    intro acc key4 x
    simp [addArrowSources]
  | cons kv src_attrs ih =>
    intro acc key4 x
    have hunf : addArrowSources st src_type src_name (kv :: src_attrs) acc =
        addArrowSources st src_type src_name src_attrs
          (addDstsForAttr st src_type src_name kv.1 kv.2 acc) := rfl
    rw [hunf, ih, mem_addDstsForAttr]
    constructor
    · rintro ((h | ⟨rfl, dn, h1, h2, h3⟩) | ⟨kv', hkv', rfl, dn, h1, h2, h3⟩)
      · exact Or.inl h
      · exact Or.inr ⟨kv, List.mem_cons_self kv src_attrs, rfl, dn, h1, h2, h3⟩
      · exact Or.inr ⟨x, List.mem_cons_of_mem kv hkv', rfl, dn, h1, h2, h3⟩
    · rintro (h | ⟨kv', hkv', rfl, dn, h1, h2, h3⟩)
      · exact Or.inl (Or.inl h)
      · rcases List.mem_cons.1 hkv' with rfl | hkv''
        · exact Or.inl (Or.inr ⟨rfl, dn, h1, h2, h3⟩)
        · exact Or.inr ⟨x, hkv'', rfl, dn, h1, h2, h3⟩

theorem mem_guessPairs_fold (st : GuessIndex) :
    ∀ (items : List (String × List (String × String)))
      (acc : List (PairKey × List (String × String))) (key4 : PairKey) (x : String × String),
    (x ∈ (dlookup key4 (items.foldl (fun acc na =>
        addArrowSources st ((dlookup na.1 st.types_by_entity_name).getD dummyType)
          na.1 na.2 acc) acc)).getD [] ↔
      x ∈ (dlookup key4 acc).getD [] ∨
      ∃ na ∈ items, ∃ kv ∈ na.2, x = kv ∧ ∃ dn,
        dn ∈ ((dlookup kv.2 st.by_value).getD []) ∧ dn ≠ na.1 ∧
        key4 = ((dlookup na.1 st.types_by_entity_name).getD dummyType, na.1,
          (dlookup dn st.types_by_entity_name).getD dummyType, dn)) := by
  intro items
  induction items with
  | nil =>
    intro acc key4 x
    simp
  | cons na items ih =>
    intro acc key4 x
    rw [List.foldl_cons, ih, mem_addArrowSources]
    constructor
    · rintro ((h | ⟨kv, hkv, rfl, dn, h1, h2, h3⟩) | ⟨na', hna', kv, hkv, rfl, dn, h1, h2, h3⟩)
      · exact Or.inl h
      · exact Or.inr ⟨na, List.mem_cons_self na items, x, hkv, rfl, dn, h1, h2, h3⟩
      · exact Or.inr ⟨na', List.mem_cons_of_mem na hna', x, hkv, rfl, dn, h1, h2, h3⟩
    · rintro (h | ⟨na', hna', kv, hkv, rfl, dn, h1, h2, h3⟩)
      · exact Or.inl (Or.inl h)
      · rcases List.mem_cons.1 hna' with rfl | hna''
        · exact Or.inl (Or.inr ⟨x, hkv, rfl, dn, h1, h2, h3⟩)
        · exact Or.inr ⟨na', hna'', x, hkv, rfl, dn, h1, h2, h3⟩

theorem mem_guessPairs (st : GuessIndex) (key4 : PairKey) (x : String × String) :
    x ∈ (dlookup key4 (guessPairs st)).getD [] ↔
      ∃ na ∈ st.attrs_by_entity_name, ∃ kv ∈ na.2, x = kv ∧ ∃ dn,
        dn ∈ ((dlookup kv.2 st.by_value).getD []) ∧ dn ≠ na.1 ∧
        key4 = ((dlookup na.1 st.types_by_entity_name).getD dummyType, na.1,
          (dlookup dn st.types_by_entity_name).getD dummyType, dn) := by
  have hunf : guessPairs st = st.attrs_by_entity_name.foldl (fun acc na =>
      addArrowSources st ((dlookup na.1 st.types_by_entity_name).getD dummyType)
        na.1 na.2 acc) [] := rfl
  rw [hunf, mem_guessPairs_fold]
  simp [dlookup]

theorem mem_arrowsOfGuessPairs {pairs : List (PairKey × List (String × String))} {a : Arrow} :
    a ∈ arrowsOfGuessPairs pairs ↔
      ∃ p ∈ pairs, ∃ kv ∈ p.2, a = guessArrowOfKV p.1 kv := by
  rw [arrowsOfGuessPairs, mem_foldl_append]
  constructor
  · rintro (h | ⟨p, hp, h⟩)
    · exact absurd h (List.not_mem_nil a)
    · rcases List.mem_map.1 h with ⟨kv, hkv, rfl⟩
      exact ⟨p, hp, kv, hkv, rfl⟩
  · rintro ⟨p, hp, kv, hkv, rfl⟩
    exact Or.inr ⟨p, hp, List.mem_map_of_mem _ hkv⟩

theorem foldl_dupd_keys_nodup {K V β : Type} [DecidableEq K] (key : β → K) (dflt : β → V)
    (f : β → V → V) :
    ∀ (bs : List β) (acc : List (K × V)), (acc.map Prod.fst).Nodup →
    ((bs.foldl (fun acc b => dupd acc (key b) (dflt b) (f b)) acc).map Prod.fst).Nodup := by
  intro bs
  induction bs with
  | nil =>
    intro acc h
    exact h
  | cons b bs ih =>
    intro acc h
    rw [List.foldl_cons]
    exact ih _ (dupd_keys_nodup h (key b) (dflt b) (f b))

theorem addDstsForAttr_keys_nodup (st : GuessIndex) (src_type : PyType) (src_name k v : String)
    {acc : List (PairKey × List (String × String))} (h : (acc.map Prod.fst).Nodup) :
    ((addDstsForAttr st src_type src_name k v acc).map Prod.fst).Nodup :=
  foldl_dupd_keys_nodup
    (fun dst_name => (src_type, src_name,
      (dlookup dst_name st.types_by_entity_name).getD dummyType, dst_name))
    (fun _ => []) (fun _ s => sadd s (k, v))
    (((dlookup v st.by_value).getD []).filter (fun n => n ≠ src_name)) acc h

theorem addArrowSources_keys_nodup (st : GuessIndex) (src_type : PyType) (src_name : String) :
    ∀ (src_attrs : List (String × String)) {acc : List (PairKey × List (String × String))},
    (acc.map Prod.fst).Nodup →
    ((addArrowSources st src_type src_name src_attrs acc).map Prod.fst).Nodup := by
  intro src_attrs
  induction src_attrs with
  | nil =>
    intro acc h
    exact h
  | cons kv src_attrs ih =>
    intro acc h
    have hunf : addArrowSources st src_type src_name (kv :: src_attrs) acc =
        addArrowSources st src_type src_name src_attrs
          (addDstsForAttr st src_type src_name kv.1 kv.2 acc) := rfl
    rw [hunf]
    exact ih (addDstsForAttr_keys_nodup st src_type src_name kv.1 kv.2 h)

theorem guessPairs_keys_nodup (st : GuessIndex) :
    ((guessPairs st).map Prod.fst).Nodup := by
  have hgen : ∀ (items : List (String × List (String × String)))
      (acc : List (PairKey × List (String × String))), (acc.map Prod.fst).Nodup →
      ((items.foldl (fun acc na =>
        addArrowSources st ((dlookup na.1 st.types_by_entity_name).getD dummyType)
          na.1 na.2 acc) acc).map Prod.fst).Nodup := by
    intro items
    induction items with
    | nil =>
      intro acc h
      exact h
    | cons na items ih =>
      intro acc h
      rw [List.foldl_cons]
      exact ih _ (addArrowSources_keys_nodup st _ na.1 na.2 h)
  exact hgen st.attrs_by_entity_name [] List.nodup_nil

theorem mem_arrowsOfGuessPairs_lookup {pairs : List (PairKey × List (String × String))}
    (hnd : (pairs.map Prod.fst).Nodup) {a : Arrow} :
    a ∈ arrowsOfGuessPairs pairs ↔
      ∃ key4 kv, kv ∈ (dlookup key4 pairs).getD [] ∧ a = guessArrowOfKV key4 kv := by
  rw [mem_arrowsOfGuessPairs]
  constructor
  · rintro ⟨p, hp, kv, hkv, rfl⟩
    have hl : dlookup p.1 pairs = some p.2 :=
      (mem_entry_iff_dlookup hnd).1 (by rw [Prod.mk.eta]; exact hp)
    exact ⟨p.1, kv, by rw [hl]; exact hkv, rfl⟩
  · rintro ⟨key4, kv, hkv, rfl⟩
    cases hl : dlookup key4 pairs with
    | none =>
      rw [hl] at hkv
      simp at hkv
    | some xs =>
      rw [hl] at hkv
      exact ⟨(key4, xs), (mem_entry_iff_dlookup hnd).2 hl, kv, by simpa using hkv, rfl⟩

theorem make_guessed_char {config : Configuration} {l : List Entity} {st : GuessIndex}
    (hidx : indexEntities config l = .ok st)
    (hnodup : (l.map (entityNameD config)).Nodup) (a : Arrow) :
    a ∈ arrowsOfGuessPairs (guessPairs st) ↔ GuessedArrowSpec config l a := by
  have hnames := indexEntities_names_ok hidx
  rw [indexEntities] at hidx
  obtain ⟨hA, hT, hBV⟩ := indexEntities_state l ⟨[], [], []⟩ st hidx hnames hnodup
    (fun _ _ => rfl) (fun _ _ => rfl)
  have hA' : st.attrs_by_entity_name =
      l.map (fun e => (entityNameD config e, get_attrs config.synonymous_attrs e)) := by
    rw [hA]
    rfl
  have hT' : st.types_by_entity_name = l.map (fun e => (entityNameD config e, e.type_)) := by
    rw [hT]
    rfl
  have hlookT : ∀ e ∈ l, dlookup (entityNameD config e) st.types_by_entity_name =
      some e.type_ := by
    intro e he
    rw [hT']
    exact dlookup_map_pair_of_nodup (fun x => entityNameD config x) (fun x => x.type_) hnodup he
  have hBV' : ∀ v n, (n ∈ (dlookup v st.by_value).getD [] ↔
      ∃ e ∈ l, n = entityNameD config e ∧
        ∃ k, (k, v) ∈ get_attrs config.synonymous_attrs e) := by
    intro v n
    rw [hBV v n]
    have hnil : n ∈ (dlookup v (GuessIndex.by_value ⟨[], [], []⟩)).getD [] ↔ False := by
      simp [dlookup]
    rw [hnil, false_or]
  rw [mem_arrowsOfGuessPairs_lookup (guessPairs_keys_nodup st)]
  constructor
  · rintro ⟨key4, kv, hmem, rfl⟩
    rcases (mem_guessPairs st key4 kv).1 hmem with ⟨na, hna, kv0, hkv0, hkveq, dn, hdn, hne, hkey⟩
    rw [hA'] at hna
    rcases List.mem_map.1 hna with ⟨e1, he1, heq1⟩
    rcases (hBV' kv0.2 dn).1 hdn with ⟨e2, he2, heq2, k2, hk2⟩
    have hna1 : na.1 = entityNameD config e1 := by rw [← heq1]
    have hna2 : na.2 = get_attrs config.synonymous_attrs e1 := by rw [← heq1]
    refine ⟨e1, he1, e2, he2, ?_, kv0.1, kv0.2, ?_, ⟨k2, hk2⟩, ?_⟩
    · intro hc
      exact hne (heq2.trans (hc.symm.trans hna1.symm))
    · rw [Prod.mk.eta, ← hna2]
      exact hkv0
    · rw [Prod.mk.eta, hkveq, hkey, hna1, heq2, hlookT e1 he1, hlookT e2 he2,
        Option.getD_some, Option.getD_some]
  · rintro ⟨e1, he1, e2, he2, hne, k, v, hkv1, ⟨k2, hk2⟩, rfl⟩
    refine ⟨(e1.type_, entityNameD config e1, e2.type_, entityNameD config e2), (k, v), ?_, rfl⟩
    apply (mem_guessPairs st _ _).2
    refine ⟨(entityNameD config e1, get_attrs config.synonymous_attrs e1), ?_, (k, v), hkv1, rfl,
      entityNameD config e2, ?_, ?_, ?_⟩
    · rw [hA']
      exact List.mem_map_of_mem _ he1
    · exact (hBV' v _).2 ⟨e2, he2, rfl, k2, hk2⟩
    · exact fun hc => hne hc.symm
    · show (e1.type_, entityNameD config e1, e2.type_, entityNameD config e2) =
        ((dlookup (entityNameD config e1) st.types_by_entity_name).getD dummyType,
          entityNameD config e1,
          (dlookup (entityNameD config e2) st.types_by_entity_name).getD dummyType,
          entityNameD config e2)
      rw [hlookT e1 he1, hlookT e2 he2, Option.getD_some, Option.getD_some]

theorem make_guessed_eq {config : Configuration} {l : List Entity} {arrows : List Arrow}
    (h : make_guessed_arrows_from_attr_string_values config l = .ok arrows) :
    ∃ st, indexEntities config l = .ok st ∧ arrows = arrowsOfGuessPairs (guessPairs st) := by
  rw [make_guessed_arrows_from_attr_string_values] at h
  cases hidx : indexEntities config l with
  | error e =>
    rw [hidx] at h
    exact Except.noConfusion h
  | ok st =>
    rw [hidx] at h
    rcases Except.ok.inj h
    exact ⟨st, rfl, rfl⟩

/-- Claim C6 (amended): provided the slugified entity names of the input
list are pairwise distinct, no arrow produced by
`make_guessed_arrows_from_attr_string_values` has `src_name` equal to
`dst_name`.  (The unqualified claim is false: two distinct entity names can
collide after slugification and then yield a guessed self-loop.) -/
theorem guessed_no_self_loop_of_slug_nodup {config : Configuration} {l : List Entity}
    {arrows : List Arrow}
    (hok : make_guessed_arrows_from_attr_string_values config l = .ok arrows)
    (hnodup : (l.map (fun e => slugify (entityNameD config e))).Nodup) :
    ∀ a ∈ arrows, a.src_name ≠ a.dst_name := by
  rcases make_guessed_eq hok with ⟨st, hidx, rfl⟩
  have hmm : l.map (fun e => slugify (entityNameD config e)) =
      (l.map (entityNameD config)).map slugify := by
    rw [List.map_map]
    rfl
  have hnames : (l.map (entityNameD config)).Nodup := by
    rw [hmm] at hnodup
    exact hnodup.of_map
  intro a ha
  rcases (make_guessed_char hidx hnames a).1 ha with ⟨e1, he1, e2, he2, hne, k, v, _, _, rfl⟩
  show slugify (entityNameD config e1) ≠ slugify (entityNameD config e2)
  intro hc
  exact hne (congrArg (entityNameD config) (List.inj_on_of_nodup_map hnodup he1 he2 hc))

/-- Claim C6 (amended), witness at Scenario 1's inputs and its first guessed
arrow. -/
theorem guessed_no_self_loop_of_slug_nodup_witness :
    (⟨"widget_1", "lozenge_1", "lozenge", some "1", true, WidgetT, LozengeT⟩ : Arrow).src_name ≠
    (⟨"widget_1", "lozenge_1", "lozenge", some "1", true, WidgetT, LozengeT⟩ : Arrow).dst_name :=
  @guessed_no_self_loop_of_slug_nodup scenario1_config [widget1, lozenge1]
    [⟨"widget_1", "lozenge_1", "lozenge", some "1", true, WidgetT, LozengeT⟩,
     ⟨"widget_1", "lozenge_1", "part", some "1", true, WidgetT, LozengeT⟩,
     ⟨"widget_1", "lozenge_1", "ref", some "1", true, WidgetT, LozengeT⟩,
     ⟨"lozenge_1", "widget_1", "ref", some "1", true, LozengeT, WidgetT⟩,
     ⟨"lozenge_1", "widget_1", "widget", some "1", true, LozengeT, WidgetT⟩]
    (by decide) (by decide)
    ⟨"widget_1", "lozenge_1", "lozenge", some "1", true, WidgetT, LozengeT⟩ (by decide)

/-! ### Arrow combination: index, grouping and merge characterization -/

theorem mapM_except_eq_map {β γ : Type} (f : β → Except Err γ) (g : β → γ) :
    ∀ (l : List β), (∀ b ∈ l, f b = .ok (g b)) → l.mapM f = .ok (l.map g) := by
  intro l
  induction l with
  | nil =>
    intro _
    rfl
  | cons b l ih =>
    intro h
    rw [List.mapM_cons, h b (List.mem_cons_self b l),
      ih (fun x hx => h x (List.mem_cons_of_mem b hx))]
    rfl

theorem mapM_except_ok_forall {β γ : Type} (f : β → Except Err γ) :
    ∀ {l : List β} {res : List γ}, l.mapM f = .ok res → ∀ b ∈ l, ∃ c, f b = .ok c := by
  intro l
  induction l with
  | nil =>
    intro res _ b hb
    exact absurd hb (List.not_mem_nil b)
  | cons x l ih =>
    intro res h b hb
    rw [List.mapM_cons] at h
    cases hfx : f x with
    | error e =>
      rw [hfx] at h
      exact Except.noConfusion h
    | ok c =>
      rw [hfx] at h
      cases hrest : l.mapM f with
      | error e =>
        rw [hrest] at h
        exact Except.noConfusion h
      | ok ys =>
        rcases List.mem_cons.1 hb with rfl | hb'
        · exact ⟨c, hfx⟩
        · exact ih hrest b hb'

theorem make_label_congr {l1 l2 : List Arrow}
    (h : ∀ k, k ∈ l1.map Arrow.key ↔ k ∈ l2.map Arrow.key) :
    make_label l1 = make_label l2 := by
  rw [make_label, make_label, sortStr_canon (sdedup_perm h)]

theorem uspair_cases (a b : String) : uspair a b = (a, b) ∨ uspair a b = (b, a) := by
  unfold uspair
  split
  · exact Or.inl rfl
  · exact Or.inr rfl

theorem uspair_fst_ne_snd {a b : String} (h : a ≠ b) : (uspair a b).1 ≠ (uspair a b).2 := by
  rcases uspair_cases a b with he | he
  · rw [he]
    exact h
  · rw [he]
    exact fun hc => h hc.symm

theorem uspair_le (a b : String) : strLeb (uspair a b).1 (uspair a b).2 = true := by
  unfold uspair
  by_cases h : strLeb a b = true
  · rw [if_pos h]
    exact h
  · rw [if_neg h]
    exact (strLe_total a b).resolve_left h

theorem uspair_comm (a b : String) : uspair a b = uspair b a := by
  unfold uspair
  by_cases h1 : strLeb a b = true
  · rw [if_pos h1]
    by_cases h2 : strLeb b a = true
    · rw [if_pos h2]
      have hab : a = b := @IsAntisymm.antisymm String strLe _ a b h1 h2
      rw [hab]
    · rw [if_neg h2]
  · rw [if_neg h1]
    have h2 : strLeb b a = true := (strLe_total a b).resolve_left h1
    rw [if_pos h2]

theorem uspair_self (a : String) : uspair a a = (a, a) := by
  rcases uspair_cases a a with he | he <;> exact he

theorem DotArrow_make_true_of_le {a b : String} (lbl : Option String)
    (h : strLeb a b = true) : DotArrow.make a b lbl true = ⟨a, b, lbl, true⟩ := by
  rw [DotArrow.make, if_pos rfl, if_pos h]

theorem DotArrow_make_false (a b : String) (lbl : Option String) :
    DotArrow.make a b lbl false = ⟨a, b, lbl, false⟩ := by
  rw [DotArrow.make, if_neg (by decide : ¬ false = true)]

theorem DotArrow_make_bidirectional (a b : String) (lbl : Option String) (bi : Bool) :
    (DotArrow.make a b lbl bi).bidirectional = bi := by
  rw [DotArrow.make]
  split
  · split <;> rfl
  · rfl

theorem make_index_eq_foldl (A : List Arrow) : make_index A = A.foldl idxStep ⟨[], []⟩ := rfl

theorem make_index_fold_src :
    ∀ (A : List Arrow) (acc : Index) (p : String × String) (x : Arrow),
    (x ∈ (dlookup p (A.foldl idxStep acc).by_src_dst_name_pairs).getD [] ↔
      x ∈ (dlookup p acc.by_src_dst_name_pairs).getD [] ∨
        (x ∈ A ∧ (x.src_name, x.dst_name) = p)) := by
  intro A
  induction A with
  | nil =>
    intro acc p x
    simp
  | cons a A ih =>
    intro acc p x
    rw [List.foldl_cons, ih]
    have hstep : (idxStep acc a).by_src_dst_name_pairs =
        dupd acc.by_src_dst_name_pairs (a.src_name, a.dst_name) [] (fun s => sadd s a) := rfl
    rw [hstep, dlookup_dupd]
    by_cases hp : p = (a.src_name, a.dst_name)
    · subst hp
      rw [if_pos rfl]
      simp only [Option.getD_some]
      rw [mem_sadd]
      constructor
      · rintro ((h | rfl) | ⟨hxA, hpair⟩)
        · exact Or.inl h
        · exact Or.inr ⟨List.mem_cons_self x A, rfl⟩
        · exact Or.inr ⟨List.mem_cons_of_mem a hxA, hpair⟩
      · rintro (h | ⟨hxA, hpair⟩)
        · exact Or.inl (Or.inl h)
        · rcases List.mem_cons.1 hxA with rfl | hxA'
          · exact Or.inl (Or.inr rfl)
          · exact Or.inr ⟨hxA', hpair⟩
    · rw [if_neg hp]
      constructor
      · rintro (h | ⟨hxA, hpair⟩)
        · exact Or.inl h
        · exact Or.inr ⟨List.mem_cons_of_mem a hxA, hpair⟩
      · rintro (h | ⟨hxA, hpair⟩)
        · exact Or.inl h
        · rcases List.mem_cons.1 hxA with rfl | hxA'
          · exact absurd hpair.symm hp
          · exact Or.inr ⟨hxA', hpair⟩

theorem make_index_fold_und :
    ∀ (A : List Arrow) (acc : Index) (p : String × String) (x : Arrow),
    (x ∈ (dlookup p (A.foldl idxStep acc).by_undirected_src_dst_name_pairs).getD [] ↔
      x ∈ (dlookup p acc.by_undirected_src_dst_name_pairs).getD [] ∨
        (x ∈ A ∧ uspair x.src_name x.dst_name = p)) := by
  intro A
  induction A with
  | nil =>
    intro acc p x
    simp
  | cons a A ih =>
    intro acc p x
    rw [List.foldl_cons, ih]
    have hstep : (idxStep acc a).by_undirected_src_dst_name_pairs =
        dupd acc.by_undirected_src_dst_name_pairs (uspair a.src_name a.dst_name) []
          (fun s => sadd s a) := rfl
    rw [hstep, dlookup_dupd]
    by_cases hp : p = uspair a.src_name a.dst_name
    · subst hp
      rw [if_pos rfl]
      simp only [Option.getD_some]
      rw [mem_sadd]
      constructor
      · rintro ((h | rfl) | ⟨hxA, hpair⟩)
        · exact Or.inl h
        · exact Or.inr ⟨List.mem_cons_self x A, rfl⟩
        · exact Or.inr ⟨List.mem_cons_of_mem a hxA, hpair⟩
      · rintro (h | ⟨hxA, hpair⟩)
        · exact Or.inl (Or.inl h)
        · rcases List.mem_cons.1 hxA with rfl | hxA'
          · exact Or.inl (Or.inr rfl)
          · exact Or.inr ⟨hxA', hpair⟩
    · rw [if_neg hp]
      constructor
      · rintro (h | ⟨hxA, hpair⟩)
        · exact Or.inl h
        · exact Or.inr ⟨List.mem_cons_of_mem a hxA, hpair⟩
      · rintro (h | ⟨hxA, hpair⟩)
        · exact Or.inl h
        · rcases List.mem_cons.1 hxA with rfl | hxA'
          · exact absurd hpair.symm hp
          · exact Or.inr ⟨hxA', hpair⟩

theorem make_index_fold_keys :
    ∀ (A : List Arrow) (acc : Index),
    (acc.by_src_dst_name_pairs.map Prod.fst).Nodup →
    (acc.by_undirected_src_dst_name_pairs.map Prod.fst).Nodup →
    ((A.foldl idxStep acc).by_src_dst_name_pairs.map Prod.fst).Nodup ∧
      ((A.foldl idxStep acc).by_undirected_src_dst_name_pairs.map Prod.fst).Nodup := by
  intro A
  induction A with
  | nil =>
    intro acc h1 h2
    exact ⟨h1, h2⟩
  | cons a A ih =>
    intro acc h1 h2
    rw [List.foldl_cons]
    exact ih (idxStep acc a)
      (dupd_keys_nodup h1 (a.src_name, a.dst_name) [] (fun s => sadd s a))
      (dupd_keys_nodup h2 (uspair a.src_name a.dst_name) [] (fun s => sadd s a))

theorem make_index_src {A : List Arrow} {p : String × String} {x : Arrow} :
    x ∈ (dlookup p (make_index A).by_src_dst_name_pairs).getD [] ↔
      x ∈ A ∧ (x.src_name, x.dst_name) = p := by
  rw [make_index_eq_foldl, make_index_fold_src]
  simp [dlookup]

theorem make_index_und {A : List Arrow} {p : String × String} {x : Arrow} :
    x ∈ (dlookup p (make_index A).by_undirected_src_dst_name_pairs).getD [] ↔
      x ∈ A ∧ uspair x.src_name x.dst_name = p := by
  rw [make_index_eq_foldl, make_index_fold_und]
  simp [dlookup]

theorem make_index_keys (A : List Arrow) :
    ((make_index A).by_src_dst_name_pairs.map Prod.fst).Nodup ∧
      ((make_index A).by_undirected_src_dst_name_pairs.map Prod.fst).Nodup := by
  rw [make_index_eq_foldl]
  exact make_index_fold_keys A ⟨[], []⟩ List.nodup_nil List.nodup_nil

theorem grouped_und_eq_foldl (idx : Index) (arrows : List Arrow) :
    idx.grouped_by_undirected_edge_and_value arrows =
      idx.by_undirected_src_dst_name_pairs.foldl guStep ([], sdedup arrows) := rfl

theorem grouped_dir_eq_foldl (idx : Index) (arrows : List Arrow) :
    idx.grouped_by_directed_edge arrows =
      idx.by_src_dst_name_pairs.foldl (gdStep arrows) [] := rfl

theorem guStep_eq (gs : List ((String × String) × List Arrow)) (u : List Arrow)
    (ng : (String × String) × List Arrow) :
    guStep (gs, u) ng =
      if (ng.2.filter (fun a => a ∈ u)).isEmpty then
        (gs, u.filter (fun a => a ∉ ng.2.filter (fun b => b ∈ u)))
      else (gs ++ [(ng.1, ng.2.filter (fun a => a ∈ u))],
        u.filter (fun a => a ∉ ng.2.filter (fun b => b ∈ u))) := rfl

theorem gdStep_eq (arrows : List Arrow) (acc : List ((String × String) × List Arrow))
    (ng : (String × String) × List Arrow) :
    gdStep arrows acc ng =
      if (ng.2.filter (fun a => a ∈ arrows)).isEmpty then acc
      else acc ++ [(ng.1, ng.2.filter (fun a => a ∈ arrows))] := rfl

theorem groupCollect_none {u : List Arrow} {ng : (String × String) × List Arrow}
    (h : (ng.2.filter (fun a => a ∈ u)).isEmpty = true) : groupCollect u ng = none := by
  rw [groupCollect, if_pos h]

theorem groupCollect_some {u : List Arrow} {ng : (String × String) × List Arrow}
    (h : ¬ (ng.2.filter (fun a => a ∈ u)).isEmpty = true) :
    groupCollect u ng = some (ng.1, ng.2.filter (fun a => a ∈ u)) := by
  rw [groupCollect, if_neg h]

theorem filterMap_congr {α β : Type} {f g : α → Option β} :
    ∀ {l : List α}, (∀ a ∈ l, f a = g a) → l.filterMap f = l.filterMap g := by
  intro l
  induction l with
  | nil =>
    intro _
    rfl
  | cons a l ih =>
    intro h
    rw [List.filterMap_cons, List.filterMap_cons, h a (List.mem_cons_self a l),
      ih (fun x hx => h x (List.mem_cons_of_mem a hx))]

theorem grouped_dir_fold (arrows : List Arrow) :
    ∀ (entries : List ((String × String) × List Arrow))
      (acc : List ((String × String) × List Arrow)),
    entries.foldl (gdStep arrows) acc = acc ++ entries.filterMap (groupCollect arrows) := by
  intro entries
  induction entries with
  | nil =>
    intro acc
    simp
  | cons ng entries ih =>
    intro acc
    rw [List.foldl_cons, gdStep_eq]
    by_cases hm : (ng.2.filter (fun a => a ∈ arrows)).isEmpty = true
    · rw [if_pos hm, ih, List.filterMap_cons_none (groupCollect_none hm)]
    · rw [if_neg hm, ih, List.filterMap_cons_some (groupCollect_some hm),
        List.append_assoc]
      rfl

theorem grouped_und_fold (AA : List Arrow) :
    ∀ (entries : List ((String × String) × List Arrow))
      (gs0 : List ((String × String) × List Arrow)) (u0 : List Arrow),
    (entries.map Prod.fst).Nodup →
    (∀ p ∈ entries, ∀ a : Arrow, (a ∈ p.2 ↔ a ∈ AA ∧ uspair a.src_name a.dst_name = p.1)) →
    (∀ a ∈ u0, a ∈ AA) →
    entries.foldl guStep (gs0, u0) =
      (gs0 ++ entries.filterMap (groupCollect u0),
       u0.filter (fun a => uspair a.src_name a.dst_name ∉ entries.map Prod.fst)) := by
  intro entries
  induction entries with
  | nil =>
    intro gs0 u0 _ _ _
    simp
  | cons ng entries ih =>
    intro gs0 u0 hnd hent hsub
    have hent0 := hent ng (List.mem_cons_self ng entries)
    rw [List.map_cons] at hnd
    have hng1 : ng.1 ∉ entries.map Prod.fst := (List.nodup_cons.1 hnd).1
    have htl : (entries.map Prod.fst).Nodup := (List.nodup_cons.1 hnd).2
    have hu1 : u0.filter (fun a => a ∉ ng.2.filter (fun b => b ∈ u0)) =
        u0.filter (fun a => ¬ uspair a.src_name a.dst_name = ng.1) := by
      apply List.filter_congr
      intro a ha
      apply decide_eq_decide.2
      constructor
      · intro hnm hk
        exact hnm (List.mem_filter.2 ⟨(hent0 a).2 ⟨hsub a ha, hk⟩, by simpa using ha⟩)
      · intro hk hmem
        exact hk ((hent0 a).1 (List.mem_filter.1 hmem).1).2
    have hsub' : ∀ a ∈ u0.filter (fun a => ¬ uspair a.src_name a.dst_name = ng.1), a ∈ AA :=
      fun a ha => hsub a (List.mem_filter.1 ha).1
    have hent' : ∀ p ∈ entries, ∀ a : Arrow,
        (a ∈ p.2 ↔ a ∈ AA ∧ uspair a.src_name a.dst_name = p.1) :=
      fun p hp => hent p (List.mem_cons_of_mem ng hp)
    have hB1 : entries.filterMap
        (groupCollect (u0.filter (fun a => ¬ uspair a.src_name a.dst_name = ng.1))) =
        entries.filterMap (groupCollect u0) := by
      apply filterMap_congr
      intro p hp
      have hp1 : ¬ p.1 = ng.1 := by
        intro hc
        exact hng1 (hc ▸ List.mem_map_of_mem Prod.fst hp)
      have hfl : p.2.filter
          (fun a => a ∈ u0.filter (fun a => ¬ uspair a.src_name a.dst_name = ng.1)) =
          p.2.filter (fun a => a ∈ u0) := by
        apply List.filter_congr
        intro a ha
        apply decide_eq_decide.2
        have hka : uspair a.src_name a.dst_name = p.1 :=
          ((hent' p hp a).1 ha).2
        constructor
        · intro h
          exact (List.mem_filter.1 h).1
        · intro h
          refine List.mem_filter.2 ⟨h, ?_⟩
          simpa using fun hc => hp1 (hka ▸ hc)
      rw [groupCollect, groupCollect, hfl]
    have hB2 : (u0.filter (fun a => ¬ uspair a.src_name a.dst_name = ng.1)).filter
        (fun a => uspair a.src_name a.dst_name ∉ entries.map Prod.fst) =
        u0.filter (fun a => uspair a.src_name a.dst_name ∉ (ng :: entries).map Prod.fst) := by
      rw [List.filter_filter]
      apply List.filter_congr
      intro a _
      rw [List.map_cons]
      by_cases h1 : uspair a.src_name a.dst_name = ng.1
      · simp [h1]
      · by_cases h2 : uspair a.src_name a.dst_name ∈ entries.map Prod.fst
        · simp [h1, h2]
        · simp [h1, h2]
    by_cases hm : (ng.2.filter (fun a => a ∈ u0)).isEmpty = true
    · rw [List.foldl_cons, guStep_eq, if_pos hm, hu1,
        ih gs0 (u0.filter (fun a => ¬ uspair a.src_name a.dst_name = ng.1)) htl hent' hsub']
      rw [Prod.mk.injEq]
      constructor
      · rw [hB1, List.filterMap_cons_none (groupCollect_none hm)]
      · exact hB2
    · rw [List.foldl_cons, guStep_eq, if_neg hm, hu1,
        ih (gs0 ++ [(ng.1, ng.2.filter (fun a => a ∈ u0))])
          (u0.filter (fun a => ¬ uspair a.src_name a.dst_name = ng.1)) htl hent' hsub']
      rw [Prod.mk.injEq]
      constructor
      · rw [hB1, List.filterMap_cons_some (groupCollect_some hm), List.append_assoc]
        rfl
      · exact hB2

theorem make_index_und_entry {A : List Arrow} {p : (String × String) × List Arrow}
    (hp : p ∈ (make_index A).by_undirected_src_dst_name_pairs) (x : Arrow) :
    x ∈ p.2 ↔ x ∈ A ∧ uspair x.src_name x.dst_name = p.1 := by
  have hl : dlookup p.1 (make_index A).by_undirected_src_dst_name_pairs = some p.2 :=
    (mem_entry_iff_dlookup (make_index_keys A).2).1 (by rw [Prod.mk.eta]; exact hp)
  have hgd : (dlookup p.1 (make_index A).by_undirected_src_dst_name_pairs).getD [] = p.2 := by
    rw [hl, Option.getD_some]
  rw [← hgd]
  exact make_index_und

theorem isEmpty_false_of_mem {α : Type} {l : List α} {x : α} (h : x ∈ l) :
    ¬ l.isEmpty = true := by
  cases l with
  | nil => exact absurd h (List.not_mem_nil x)
  | cons a l =>
    intro hc
    exact Bool.noConfusion hc

theorem group_char (A : List Arrow) (q : Arrow → Bool) (key : Arrow → String × String)
    (entries : List ((String × String) × List Arrow))
    (hkeys : (entries.map Prod.fst).Nodup)
    (hlook : ∀ (p : String × String) (x : Arrow),
      x ∈ (dlookup p entries).getD [] ↔ x ∈ A ∧ key x = p) :
    (∀ ng ∈ entries.filterMap (groupCollect ((sdedup A).filter q)),
      (∃ a, a ∈ A ∧ q a = true ∧ key a = ng.1) ∧
      (∀ x, x ∈ ng.2 ↔ x ∈ A ∧ q x = true ∧ key x = ng.1)) ∧
    (∀ a, a ∈ A → q a = true →
      ∃ m, (key a, m) ∈ entries.filterMap (groupCollect ((sdedup A).filter q))) := by
  have hent : ∀ p ∈ entries, ∀ x : Arrow, (x ∈ p.2 ↔ x ∈ A ∧ key x = p.1) := by
    intro p hp x
    have hl : dlookup p.1 entries = some p.2 :=
      (mem_entry_iff_dlookup hkeys).1 (by rw [Prod.mk.eta]; exact hp)
    have hgd : (dlookup p.1 entries).getD [] = p.2 := by
      rw [hl, Option.getD_some]
    rw [← hgd]
    exact hlook p.1 x
  constructor
  · intro ng hng
    rcases List.mem_filterMap.1 hng with ⟨p, hp, hgc⟩
    by_cases hm : (p.2.filter (fun a => a ∈ (sdedup A).filter q)).isEmpty = true
    · rw [groupCollect_none hm] at hgc
      exact Option.noConfusion hgc
    · rw [groupCollect_some hm] at hgc
      rcases Option.some_inj.1 hgc
      have hiff : ∀ x, (x ∈ p.2.filter (fun a => a ∈ (sdedup A).filter q) ↔
          x ∈ A ∧ q x = true ∧ key x = p.1) := by
        intro x
        rw [List.mem_filter]
        constructor
        · rintro ⟨h1, h2⟩
          have h3 := (hent p hp x).1 h1
          have h4 : x ∈ (sdedup A).filter q := by simpa using h2
          exact ⟨h3.1, (List.mem_filter.1 h4).2, h3.2⟩
        · rintro ⟨h1, h2, h3⟩
          exact ⟨(hent p hp x).2 ⟨h1, h3⟩,
            by simpa using List.mem_filter.2 ⟨mem_sdedup.2 h1, h2⟩⟩
      have hnemp : p.2.filter (fun a => a ∈ (sdedup A).filter q) ≠ [] :=
        fun hc => hm (by rw [hc]; rfl)
      rcases List.exists_mem_of_ne_nil _ hnemp with ⟨a, ham⟩
      rcases (hiff a).1 ham with ⟨haA, haq, hak⟩
      exact ⟨⟨a, haA, haq, hak⟩, hiff⟩
  · intro a haA haq
    have h1 : a ∈ (dlookup (key a) entries).getD [] := (hlook (key a) a).2 ⟨haA, rfl⟩
    cases hdl : dlookup (key a) entries with
    | none =>
      rw [hdl] at h1
      simp at h1
    | some arr =>
      rw [hdl] at h1
      have harr : a ∈ arr := by simpa using h1
      have hpent : ((key a), arr) ∈ entries := (mem_entry_iff_dlookup hkeys).2 hdl
      have hain : a ∈ arr.filter (fun x => x ∈ (sdedup A).filter q) :=
        List.mem_filter.2 ⟨harr, by
          simpa using List.mem_filter.2 ⟨mem_sdedup.2 haA, haq⟩⟩
      refine ⟨arr.filter (fun x => x ∈ (sdedup A).filter q),
        List.mem_filterMap.2 ⟨((key a), arr), hpent, ?_⟩⟩
      rw [groupCollect_some (fun hc => isEmpty_false_of_mem hain hc)]

theorem filterMap_keys_sublist {α β γ : Type} (F : α × β → Option (α × γ))
    (hF : ∀ p r, F p = some r → r.1 = p.1) :
    ∀ l : List (α × β), ((l.filterMap F).map Prod.fst).Sublist (l.map Prod.fst) := by
  intro l
  induction l with
  | nil => exact List.Sublist.refl _
  | cons p l ih =>
    rw [List.map_cons]
    cases hgc : F p with
    | none =>
      rw [List.filterMap_cons, hgc]
      exact List.Sublist.cons p.1 ih
    | some r =>
      rw [List.filterMap_cons, hgc]
      show (r.1 :: (l.filterMap F).map Prod.fst).Sublist (p.1 :: l.map Prod.fst)
      rw [hF p r hgc]
      exact List.Sublist.cons₂ p.1 ih

theorem groupCollect_keeps_key {u : List Arrow} :
    ∀ (p r : (String × String) × List Arrow), groupCollect u p = some r → r.1 = p.1 := by
  intro p r h
  by_cases hm : (p.2.filter (fun a => a ∈ u)).isEmpty = true
  · rw [groupCollect_none hm] at h
    exact Option.noConfusion h
  · rw [groupCollect_some hm] at h
    rcases Option.some_inj.1 h
    rfl

theorem combine_arrows_eq (A : List Arrow) :
    combine_arrows none A = ((guessedGroups A).mapM r1Step >>= fun r1 =>
      pure (r1 ++ (directGroups A).map
        (fun ng => DotArrow.make ng.1.1 ng.1.2 (some (make_label ng.2)) false))) := by
  have hG0nd : ((sdedup A).filter (fun a => a.guessed)).Nodup := (nodup_sdedup A).filter _
  have hgu := grouped_und_fold A (make_index A).by_undirected_src_dst_name_pairs []
      ((sdedup A).filter (fun a => a.guessed)) (make_index_keys A).2
      (fun p hp x => make_index_und_entry hp x)
      (fun a ha => mem_sdedup.1 (List.mem_filter.1 ha).1)
  have hemp : ((sdedup A).filter (fun a => a.guessed)).filter
      (fun a => uspair a.src_name a.dst_name ∉
        ((make_index A).by_undirected_src_dst_name_pairs.map Prod.fst)) = [] := by
    rw [List.filter_eq_nil_iff]
    intro a ha
    have haA : a ∈ A := mem_sdedup.1 (List.mem_filter.1 ha).1
    have h1 : a ∈ (dlookup (uspair a.src_name a.dst_name)
        (make_index A).by_undirected_src_dst_name_pairs).getD [] :=
      make_index_und.2 ⟨haA, rfl⟩
    cases hdl : dlookup (uspair a.src_name a.dst_name)
        (make_index A).by_undirected_src_dst_name_pairs with
    | none =>
      rw [hdl] at h1
      simp at h1
    | some arr =>
      have h2 : uspair a.src_name a.dst_name ∈
          (make_index A).by_undirected_src_dst_name_pairs.map Prod.fst :=
        keys_mem_iff_dlookup.2 (by rw [hdl]; rfl)
      simpa using h2
  have hcomb0 : combine_arrows none A =
      (((make_index A).grouped_by_undirected_edge_and_value
          ((sdedup A).filter (fun a => a.guessed))).1.mapM r1Step >>= fun r1 =>
        pure (r1 ++ ((make_index A).grouped_by_directed_edge
          (((make_index A).grouped_by_undirected_edge_and_value
            ((sdedup A).filter (fun a => a.guessed))).2 ++
            (sdedup A).filter (fun a => !a.guessed))).map
          (fun ng => DotArrow.make ng.1.1 ng.1.2 (some (make_label ng.2)) false))) := rfl
  rw [grouped_und_eq_foldl, sdedup_eq_self hG0nd, hgu, hemp, grouped_dir_eq_foldl,
    grouped_dir_fold] at hcomb0
  exact hcomb0

theorem mapM_r1Step_ok {A : List Arrow}
    (hns : ∀ a ∈ A, a.guessed = true → a.src_name ≠ a.dst_name) :
    (guessedGroups A).mapM r1Step = .ok ((guessedGroups A).map
      (fun ng => DotArrow.make ng.1.1 ng.1.2 (some (make_label ng.2)) true)) := by
  apply mapM_except_eq_map
  intro ng hng
  rcases (group_char A (fun a => a.guessed) (fun x => uspair x.src_name x.dst_name)
      (make_index A).by_undirected_src_dst_name_pairs (make_index_keys A).2
      (fun p x => make_index_und)).1 ng hng with ⟨⟨a, haA, haq, hak⟩, _⟩
  have hne : ng.1.1 ≠ ng.1.2 := by
    rw [← hak]
    exact uspair_fst_ne_snd (hns a haA haq)
  show (if ng.1.1 = ng.1.2 then Except.error Err.valueError
    else pure (DotArrow.make ng.1.1 ng.1.2 (some (make_label ng.2)) true)) = _
  rw [if_neg hne]
  rfl

theorem combine_ok_no_self_loop {A : List Arrow} {D : List DotArrow}
    (h : combine_arrows none A = .ok D) :
    ∀ a ∈ A, a.guessed = true → a.src_name ≠ a.dst_name := by
  intro a haA haq hcontra
  rcases (group_char A (fun a => a.guessed) (fun x => uspair x.src_name x.dst_name)
      (make_index A).by_undirected_src_dst_name_pairs (make_index_keys A).2
      (fun p x => make_index_und)).2 a haA haq with ⟨m, hm⟩
  rw [combine_arrows_eq] at h
  cases hmm : (guessedGroups A).mapM r1Step with
  | error e =>
    rw [hmm] at h
    exact Except.noConfusion h
  | ok r1 =>
    rcases mapM_except_ok_forall _ hmm (uspair a.src_name a.dst_name, m) hm with ⟨c, hc⟩
    have hself : (uspair a.src_name a.dst_name).1 = (uspair a.src_name a.dst_name).2 := by
      rw [hcontra, uspair_self]
    have hstep : r1Step (uspair a.src_name a.dst_name, m) = Except.error Err.valueError := by
      show (if (uspair a.src_name a.dst_name).1 = (uspair a.src_name a.dst_name).2 then
          Except.error Err.valueError
        else pure (DotArrow.make (uspair a.src_name a.dst_name).1
          (uspair a.src_name a.dst_name).2 (some (make_label m)) true)) =
        Except.error Err.valueError
      rw [if_pos hself]
    rw [hstep] at hc
    exact Except.noConfusion hc

theorem combine_arrows_char {A : List Arrow}
    (hns : ∀ a ∈ A, a.guessed = true → a.src_name ≠ a.dst_name) :
    ∃ D, combine_arrows none A = .ok D ∧ D.Nodup ∧
      ∀ d, (d ∈ D ↔ CombinedArrowSpec A d) := by
  have hcharU := group_char A (fun a => a.guessed) (fun x => uspair x.src_name x.dst_name)
      (make_index A).by_undirected_src_dst_name_pairs (make_index_keys A).2
      (fun p x => make_index_und)
  have hcharS := group_char A (fun a => !a.guessed) (fun x => (x.src_name, x.dst_name))
      (make_index A).by_src_dst_name_pairs (make_index_keys A).1
      (fun p x => make_index_src)
  have hkk1 : ((guessedGroups A).map Prod.fst).Nodup :=
    List.Nodup.sublist (filterMap_keys_sublist _ groupCollect_keeps_key _)
      (make_index_keys A).2
  have hkk2 : ((directGroups A).map Prod.fst).Nodup :=
    List.Nodup.sublist (filterMap_keys_sublist _ groupCollect_keeps_key _)
      (make_index_keys A).1
  have hevalB : ∀ ng ∈ guessedGroups A,
      DotArrow.make ng.1.1 ng.1.2 (some (make_label ng.2)) true =
        ⟨ng.1.1, ng.1.2, some (make_label ng.2), true⟩ := by
    intro ng hng
    rcases hcharU.1 ng hng with ⟨⟨a, _, _, hak⟩, _⟩
    apply DotArrow_make_true_of_le
    rw [← hak]
    exact uspair_le a.src_name a.dst_name
  have hlabU : ∀ ng ∈ guessedGroups A, make_label ng.2 = undirectedLabel A ng.1 := by
    intro ng hng
    rcases hcharU.1 ng hng with ⟨_, hiff⟩
    rw [undirectedLabel]
    apply make_label_congr
    intro k
    rw [List.mem_map, List.mem_map]
    constructor
    · rintro ⟨x, hx, rfl⟩
      rcases (hiff x).1 hx with ⟨hxA, hxq, hxk⟩
      refine ⟨x, List.mem_filter.2 ⟨hxA, ?_⟩, rfl⟩
      have hxq' : x.guessed = true := hxq
      have hxk' : uspair x.src_name x.dst_name = ng.1 := hxk
      rw [hxq', hxk']
      simp
    · rintro ⟨x, hx, rfl⟩
      rcases List.mem_filter.1 hx with ⟨hxA, hcond⟩
      rw [Bool.and_eq_true] at hcond
      exact ⟨x, (hiff x).2 ⟨hxA, hcond.1, of_decide_eq_true hcond.2⟩, rfl⟩
  have hlabS : ∀ ng ∈ directGroups A, make_label ng.2 = directedLabel A ng.1 := by
    intro ng hng
    rcases hcharS.1 ng hng with ⟨_, hiff⟩
    rw [directedLabel]
    apply make_label_congr
    intro k
    rw [List.mem_map, List.mem_map]
    constructor
    · rintro ⟨x, hx, rfl⟩
      rcases (hiff x).1 hx with ⟨hxA, hxq, hxk⟩
      refine ⟨x, List.mem_filter.2 ⟨hxA, ?_⟩, rfl⟩
      have hxq' : (!x.guessed) = true := hxq
      have hxk' : (x.src_name, x.dst_name) = ng.1 := hxk
      rw [hxq', hxk']
      simp
    · rintro ⟨x, hx, rfl⟩
      rcases List.mem_filter.1 hx with ⟨hxA, hcond⟩
      rw [Bool.and_eq_true] at hcond
      exact ⟨x, (hiff x).2 ⟨hxA, hcond.1, of_decide_eq_true hcond.2⟩, rfl⟩
  refine ⟨(guessedGroups A).map
      (fun ng => DotArrow.make ng.1.1 ng.1.2 (some (make_label ng.2)) true) ++
    (directGroups A).map
      (fun ng => DotArrow.make ng.1.1 ng.1.2 (some (make_label ng.2)) false), ?_, ?_, ?_⟩
  · rw [combine_arrows_eq, mapM_r1Step_ok hns]
    rfl
  · have hnd1 : ((guessedGroups A).map
        (fun ng => DotArrow.make ng.1.1 ng.1.2 (some (make_label ng.2)) true)).Nodup := by
      apply List.Nodup.map_on ?_ hkk1.of_map
      intro ng hng ng' hng' heq
      rw [hevalB ng hng, hevalB ng' hng'] at heq
      have h1 : ng.1.1 = ng'.1.1 := congrArg DotArrow.src heq
      have h2 : ng.1.2 = ng'.1.2 := congrArg DotArrow.dst heq
      exact List.inj_on_of_nodup_map hkk1 hng hng' (Prod.ext h1 h2)
    have hnd2 : ((directGroups A).map
        (fun ng => DotArrow.make ng.1.1 ng.1.2 (some (make_label ng.2)) false)).Nodup := by
      apply List.Nodup.map_on ?_ hkk2.of_map
      intro ng hng ng' hng' heq
      rw [DotArrow_make_false, DotArrow_make_false] at heq
      have h1 : ng.1.1 = ng'.1.1 := congrArg DotArrow.src heq
      have h2 : ng.1.2 = ng'.1.2 := congrArg DotArrow.dst heq
      exact List.inj_on_of_nodup_map hkk2 hng hng' (Prod.ext h1 h2)
    refine List.Nodup.append hnd1 hnd2 ?_
    intro d hd hd'
    rcases List.mem_map.1 hd with ⟨ng, hng, rfl⟩
    rcases List.mem_map.1 hd' with ⟨ng', hng', heq⟩
    have hb2 := DotArrow_make_bidirectional ng'.1.1 ng'.1.2 (some (make_label ng'.2)) false
    rw [heq, DotArrow_make_bidirectional] at hb2
    exact Bool.noConfusion hb2
  · intro d
    rw [List.mem_append]
    constructor
    · rintro (hd | hd)
      · rcases List.mem_map.1 hd with ⟨ng, hng, rfl⟩
        rcases hcharU.1 ng hng with ⟨⟨a, haA, haq, hak⟩, _⟩
        have hak' : uspair a.src_name a.dst_name = ng.1 := hak
        refine Or.inl ⟨a, haA, haq, ?_⟩
        rw [hak', hlabU ng hng]
      · rcases List.mem_map.1 hd with ⟨ng, hng, rfl⟩
        rcases hcharS.1 ng hng with ⟨⟨a, haA, haq, hak⟩, _⟩
        have hak' : (a.src_name, a.dst_name) = ng.1 := hak
        refine Or.inr ⟨a, haA, ?_, ?_⟩
        · rw [← Bool.not_eq_true']
          exact haq
        · rw [hlabS ng hng, ← hak']
    · rintro (⟨a, haA, haq, rfl⟩ | ⟨a, haA, haq, rfl⟩)
      · rcases hcharU.2 a haA haq with ⟨m, hm⟩
        refine Or.inl (List.mem_map.2 ⟨(uspair a.src_name a.dst_name, m), hm, ?_⟩)
        show DotArrow.make (uspair a.src_name a.dst_name).1 (uspair a.src_name a.dst_name).2
          (some (make_label m)) true = _
        rw [hlabU (uspair a.src_name a.dst_name, m) hm]
      · have haq' : (!a.guessed) = true := by
          rw [haq]
          rfl
        rcases hcharS.2 a haA haq' with ⟨m, hm⟩
        refine Or.inr (List.mem_map.2 ⟨((a.src_name, a.dst_name), m), hm, ?_⟩)
        show DotArrow.make a.src_name a.dst_name (some (make_label m)) false = _
        rw [hlabS ((a.src_name, a.dst_name), m) hm]

/-! ### Diagram assembly and permutation invariance -/

theorem diagram_ok_unpack {config : Configuration} {l : List Entity} {out : List String}
    (h : diagram config l = .ok out) :
    ∃ A D N, make_arrows config l = .ok A ∧
      combine_arrows (make_rules config) A = .ok D ∧
      make_nodes config l = .ok N ∧ out = render_to_dot N D := by
  have h1 : diagram config l = (make_arrows config l >>= fun arrows =>
      combine_arrows (make_rules config) arrows >>= fun dot_arrows =>
      make_nodes config l >>= fun nodes => pure (render_to_dot nodes dot_arrows)) := rfl
  rw [h1] at h
  cases hA : make_arrows config l with
  | error e =>
    rw [hA] at h
    exact Except.noConfusion h
  | ok A =>
    rw [hA] at h
    have h2 : (combine_arrows (make_rules config) A >>= fun dot_arrows =>
        make_nodes config l >>= fun nodes => pure (render_to_dot nodes dot_arrows)) =
        Except.ok out := h
    cases hD : combine_arrows (make_rules config) A with
    | error e =>
      rw [hD] at h2
      exact Except.noConfusion h2
    | ok D =>
      rw [hD] at h2
      have h3 : (make_nodes config l >>= fun nodes =>
          pure (render_to_dot nodes D)) = Except.ok out := h2
      cases hN : make_nodes config l with
      | error e =>
        rw [hN] at h3
        exact Except.noConfusion h3
      | ok N =>
        rw [hN] at h3
        have h4 : Except.ok (render_to_dot N D) = Except.ok out := h3
        exact ⟨A, D, N, rfl, hD, rfl, (Except.ok.inj h4).symm⟩

theorem diagram_ok_pack {config : Configuration} {l : List Entity} {A : List Arrow}
    {D : List DotArrow} {N : List Node}
    (hA : make_arrows config l = .ok A)
    (hD : combine_arrows (make_rules config) A = .ok D)
    (hN : make_nodes config l = .ok N) :
    diagram config l = .ok (render_to_dot N D) := by
  have h1 : diagram config l = (make_arrows config l >>= fun arrows =>
      combine_arrows (make_rules config) arrows >>= fun dot_arrows =>
      make_nodes config l >>= fun nodes => pure (render_to_dot nodes dot_arrows)) := rfl
  rw [h1, hA]
  show (combine_arrows (make_rules config) A >>= fun dot_arrows =>
      make_nodes config l >>= fun nodes => pure (render_to_dot nodes dot_arrows)) = _
  rw [hD]
  show (make_nodes config l >>= fun nodes => pure (render_to_dot nodes D)) = _
  rw [hN]
  rfl

theorem make_arrows_ok_parts {config : Configuration} {l : List Entity} {A : List Arrow}
    (hA : make_arrows config l = .ok A) :
    ∃ G R, make_guessed_arrows_from_attr_string_values config l = .ok G ∧
      make_arrows_from_python_refs config l = .ok R ∧ A = G ++ R := by
  rw [make_arrows] at hA
  cases hG : make_guessed_arrows_from_attr_string_values config l with
  | error e =>
    rw [hG] at hA
    exact Except.noConfusion hA
  | ok G =>
    rw [hG] at hA
    cases hR : make_arrows_from_python_refs config l with
    | error e =>
      rw [hR] at hA
      exact Except.noConfusion hA
    | ok R =>
      rw [hR] at hA
      exact ⟨G, R, rfl, rfl, (Except.ok.inj hA).symm⟩

theorem make_arrows_pack {config : Configuration} {l : List Entity} {G R : List Arrow}
    (hG : make_guessed_arrows_from_attr_string_values config l = .ok G)
    (hR : make_arrows_from_python_refs config l = .ok R) :
    make_arrows config l = .ok (G ++ R) := by
  rw [make_arrows, hG]
  show (make_arrows_from_python_refs config l >>= fun refs => pure (G ++ refs)) = _
  rw [hR]
  rfl

theorem make_nodes_eq {config : Configuration} {l : List Entity}
    (hnames : ∀ e ∈ l, entity_name config.id_attrs e = .ok (entityNameD config e)) :
    make_nodes config l = .ok (l.map (fun e => Node.mk (slugify (entityNameD config e)))) := by
  apply mapM_except_eq_map
  intro e he
  show (entity_name config.id_attrs e >>= fun n => pure (Node.mk (slugify n))) = _
  rw [hnames e he]
  rfl

theorem make_arrows_mem_iff {config : Configuration} {l : List Entity} {A : List Arrow}
    (hA : make_arrows config l = .ok A) (hnodup : (l.map (entityNameD config)).Nodup) :
    ∀ x, x ∈ A ↔ (GuessedArrowSpec config l x ∨ ∃ e ∈ l, x ∈ entityRefArrowsD config e) := by
  rcases make_arrows_ok_parts hA with ⟨G, R, hG, hR, rfl⟩
  intro x
  rw [List.mem_append]
  rcases make_guessed_eq hG with ⟨st, hidx, rfl⟩
  have hRiff : ∀ y : Arrow, y ∈ R ↔ ∃ e ∈ l, y ∈ entityRefArrowsD config e := by
    intro y
    have hall := make_refs_ok_elements hR
    have hcc := make_refs_eq_concat hall
    rw [hcc] at hR
    rcases Except.ok.inj hR
    exact mem_refs_join
  rw [make_guessed_char hidx hnodup x, hRiff x]

theorem guessedArrowSpec_perm {config : Configuration} {l l' : List Entity}
    (hperm : List.Perm l l') (a : Arrow) :
    GuessedArrowSpec config l a ↔ GuessedArrowSpec config l' a := by
  rw [GuessedArrowSpec, GuessedArrowSpec]
  constructor
  · rintro ⟨e1, he1, e2, he2, h⟩
    exact ⟨e1, hperm.mem_iff.1 he1, e2, hperm.mem_iff.1 he2, h⟩
  · rintro ⟨e1, he1, e2, he2, h⟩
    exact ⟨e1, hperm.mem_iff.2 he1, e2, hperm.mem_iff.2 he2, h⟩

theorem undirectedLabel_congr {A A' : List Arrow} (h : ∀ x : Arrow, x ∈ A ↔ x ∈ A')
    (p : String × String) : undirectedLabel A p = undirectedLabel A' p := by
  rw [undirectedLabel, undirectedLabel]
  apply make_label_congr
  intro k
  rw [List.mem_map, List.mem_map]
  constructor
  · rintro ⟨x, hx, rfl⟩
    rcases List.mem_filter.1 hx with ⟨h1, h2⟩
    exact ⟨x, List.mem_filter.2 ⟨(h x).1 h1, h2⟩, rfl⟩
  · rintro ⟨x, hx, rfl⟩
    rcases List.mem_filter.1 hx with ⟨h1, h2⟩
    exact ⟨x, List.mem_filter.2 ⟨(h x).2 h1, h2⟩, rfl⟩

theorem directedLabel_congr {A A' : List Arrow} (h : ∀ x : Arrow, x ∈ A ↔ x ∈ A')
    (p : String × String) : directedLabel A p = directedLabel A' p := by
  rw [directedLabel, directedLabel]
  apply make_label_congr
  intro k
  rw [List.mem_map, List.mem_map]
  constructor
  · rintro ⟨x, hx, rfl⟩
    rcases List.mem_filter.1 hx with ⟨h1, h2⟩
    exact ⟨x, List.mem_filter.2 ⟨(h x).1 h1, h2⟩, rfl⟩
  · rintro ⟨x, hx, rfl⟩
    rcases List.mem_filter.1 hx with ⟨h1, h2⟩
    exact ⟨x, List.mem_filter.2 ⟨(h x).2 h1, h2⟩, rfl⟩

theorem combinedArrowSpec_congr {A A' : List Arrow} (h : ∀ x : Arrow, x ∈ A ↔ x ∈ A')
    (d : DotArrow) : CombinedArrowSpec A d ↔ CombinedArrowSpec A' d := by
  rw [CombinedArrowSpec, CombinedArrowSpec]
  apply or_congr
  · constructor
    · rintro ⟨a, ha, hq, rfl⟩
      exact ⟨a, (h a).1 ha, hq, by rw [undirectedLabel_congr h]⟩
    · rintro ⟨a, ha, hq, rfl⟩
      exact ⟨a, (h a).2 ha, hq, by rw [undirectedLabel_congr h]⟩
  · constructor
    · rintro ⟨a, ha, hq, rfl⟩
      exact ⟨a, (h a).1 ha, hq, by rw [directedLabel_congr h]⟩
    · rintro ⟨a, ha, hq, rfl⟩
      exact ⟨a, (h a).2 ha, hq, by rw [directedLabel_congr h]⟩

/-- Claim C1 (amended): provided the entity names of the input list are
pairwise distinct, `diagram` is a function of the input's set of entities —
its successful output is unchanged under any permutation of the entity list.
(Without that proviso the claim is false: a duplicated entity name makes the
`attrs_by_entity_name` dictionary keep only the last writer, so the output
depends on the input order.) -/
theorem diagram_perm_invariant {config : Configuration} {l l' : List Entity}
    {out : List String} (hok : diagram config l = .ok out) (hperm : List.Perm l l')
    (hnodup : (l.map (entityNameD config)).Nodup) :
    diagram config l' = .ok out := by
  rcases diagram_ok_unpack hok with ⟨A, D, N, hA, hD, hN, rfl⟩
  rcases make_arrows_ok_parts hA with ⟨G, R, hG, hR, hAeq⟩
  rcases make_guessed_eq hG with ⟨st, hidx, _⟩
  have hnames := indexEntities_names_ok hidx
  have hnames' : ∀ e ∈ l', entity_name config.id_attrs e = .ok (entityNameD config e) :=
    fun e he => hnames e (hperm.mem_iff.2 he)
  have hnodup' : (l'.map (entityNameD config)).Nodup :=
    ((hperm.map (entityNameD config)).nodup_iff).1 hnodup
  rcases indexEntities_ok_of_names hnames' with ⟨st', hidx'⟩
  have hG' : make_guessed_arrows_from_attr_string_values config l' =
      .ok (arrowsOfGuessPairs (guessPairs st')) := by
    rw [make_guessed_arrows_from_attr_string_values, hidx']
    rfl
  have hallR' : ∀ e ∈ l', ∃ ra, entityRefArrows config e = .ok ra :=
    fun e he => make_refs_ok_elements hR e (hperm.mem_iff.2 he)
  have hR' := make_refs_eq_concat hallR'
  have hA' : make_arrows config l' = .ok (arrowsOfGuessPairs (guessPairs st') ++
      (l'.map (entityRefArrowsD config)).flatten) := make_arrows_pack hG' hR'
  have hmemA := make_arrows_mem_iff hA hnodup
  have hmemA' := make_arrows_mem_iff hA' hnodup'
  have hrefcongr : ∀ x : Arrow, (∃ e ∈ l, x ∈ entityRefArrowsD config e) ↔
      (∃ e ∈ l', x ∈ entityRefArrowsD config e) := by
    intro x
    constructor
    · rintro ⟨e, he, hx⟩
      exact ⟨e, hperm.mem_iff.1 he, hx⟩
    · rintro ⟨e, he, hx⟩
      exact ⟨e, hperm.mem_iff.2 he, hx⟩
  have hAA' : ∀ x : Arrow, x ∈ A ↔
      x ∈ arrowsOfGuessPairs (guessPairs st') ++ (l'.map (entityRefArrowsD config)).flatten :=
    fun x => (hmemA x).trans
      (((or_congr (guessedArrowSpec_perm hperm x) (hrefcongr x)).trans (hmemA' x).symm))
  have hns : ∀ a ∈ A, a.guessed = true → a.src_name ≠ a.dst_name :=
    combine_ok_no_self_loop (show combine_arrows none A = Except.ok D from hD)
  have hns' : ∀ a ∈ arrowsOfGuessPairs (guessPairs st') ++
      (l'.map (entityRefArrowsD config)).flatten, a.guessed = true →
      a.src_name ≠ a.dst_name :=
    fun a ha hg => hns a ((hAA' a).2 ha) hg
  rcases combine_arrows_char hns with ⟨D0, hD0, hndD0, hcharD0⟩
  have hDD0 : D = D0 :=
    Except.ok.inj ((show combine_arrows none A = Except.ok D from hD).symm.trans hD0)
  rcases hDD0
  rcases combine_arrows_char hns' with ⟨D', hD'0, hndD', hcharD'⟩
  have hpermD : List.Perm D D' := by
    rw [List.perm_ext_iff_of_nodup hndD0 hndD']
    intro d
    rw [hcharD0 d, hcharD' d]
    exact combinedArrowSpec_congr hAA' d
  have hNeq : N = l.map (fun e => Node.mk (slugify (entityNameD config e))) :=
    Except.ok.inj (hN.symm.trans (make_nodes_eq hnames))
  have hN' := make_nodes_eq hnames'
  have hmapl : (l.map (fun e => Node.mk (slugify (entityNameD config e)))).map Node.name =
      l.map (fun e => slugify (entityNameD config e)) := by
    rw [List.map_map]
    apply List.map_congr_left
    intro e _
    rfl
  have hmapl' : (l'.map (fun e => Node.mk (slugify (entityNameD config e)))).map Node.name =
      l'.map (fun e => slugify (entityNameD config e)) := by
    rw [List.map_map]
    apply List.map_congr_left
    intro e _
    rfl
  have hrender : render_to_dot N D =
      render_to_dot (l'.map (fun e => Node.mk (slugify (entityNameD config e)))) D' := by
    rw [hNeq, render_to_dot, render_to_dot, sortDot_canon hpermD, hmapl, hmapl',
      sortStr_canon (sdedup_perm
        (fun x => (hperm.map (fun e => slugify (entityNameD config e))).mem_iff))]
  rw [hrender]
  exact diagram_ok_pack hA'
    (show combine_arrows (make_rules config) (arrowsOfGuessPairs (guessPairs st') ++
      (l'.map (entityRefArrowsD config)).flatten) = Except.ok D' from hD'0) hN'

/-- Claim C1 (amended), witness: Scenario 1's diagram is reproduced when the
two entities are listed in the opposite order. -/
theorem diagram_perm_invariant_witness :
    diagram scenario1_config [lozenge1, widget1] = Except.ok
      ["lozenge_1", "widget_1",
       "lozenge_1->widget_1 [ label= <lozenge<br/>part<br/>ref<br/>widget> dir=\"both\" ]"] :=
  @diagram_perm_invariant scenario1_config [widget1, lozenge1] [lozenge1, widget1]
    ["lozenge_1", "widget_1",
     "lozenge_1->widget_1 [ label= <lozenge<br/>part<br/>ref<br/>widget> dir=\"both\" ]"]
    (by decide) (List.Perm.swap lozenge1 widget1 []) (by decide)

/-- Claim C5 (amended): for every successful diagram run whose entities have
pairwise distinct slugified names, the output starts with one node line per
entity — a permutation (the sorted arrangement) of the entities' slugified
names — followed by the edge lines; in particular the number of node lines
equals the number of entities.  (Without that proviso the claim is false:
node names are deduplicated through a set, so colliding names yield fewer
node lines than entities.) -/
theorem one_node_line_per_entity {config : Configuration} {l : List Entity}
    {out : List String} (hok : diagram config l = .ok out)
    (hnodup : (l.map (fun e => slugify (entityNameD config e))).Nodup) :
    ∃ nodeLines edgeLines, out = nodeLines ++ edgeLines ∧
      List.Perm nodeLines (l.map (fun e => slugify (entityNameD config e))) ∧
      nodeLines.length = l.length := by
  rcases diagram_ok_unpack hok with ⟨A, D, N, hA, hD, hN, rfl⟩
  rcases make_arrows_ok_parts hA with ⟨G, R, hG, hR, _⟩
  rcases make_guessed_eq hG with ⟨st, hidx, _⟩
  have hnames := indexEntities_names_ok hidx
  have hNeq : N = l.map (fun e => Node.mk (slugify (entityNameD config e))) :=
    Except.ok.inj (hN.symm.trans (make_nodes_eq hnames))
  have hmapl : (l.map (fun e => Node.mk (slugify (entityNameD config e)))).map Node.name =
      l.map (fun e => slugify (entityNameD config e)) := by
    rw [List.map_map]
    apply List.map_congr_left
    intro e _
    rfl
  refine ⟨sortStr (sdedup (N.map Node.name)), (sortDot D).map render_arrow_line, rfl, ?_, ?_⟩
  · rw [hNeq, hmapl, sdedup_eq_self hnodup]
    exact List.perm_insertionSort strLe _
  · rw [hNeq, hmapl, sdedup_eq_self hnodup, sortStr,
      (List.perm_insertionSort strLe
        (l.map (fun e => slugify (entityNameD config e)))).length_eq,
      List.length_map]

/-- Claim C5 (amended), witness at Scenario 1's inputs: two node lines for
the two entities, then the single edge line. -/
theorem one_node_line_per_entity_witness :
    ∃ nodeLines edgeLines,
      (["lozenge_1", "widget_1",
        "lozenge_1->widget_1 [ label= <lozenge<br/>part<br/>ref<br/>widget> dir=\"both\" ]"] :
        List String) = nodeLines ++ edgeLines ∧
      List.Perm nodeLines
        (([widget1, lozenge1] : List Entity).map
          (fun e => slugify (entityNameD scenario1_config e))) ∧
      nodeLines.length = ([widget1, lozenge1] : List Entity).length :=
  one_node_line_per_entity (by decide) (by decide)

end FixtureGraph

